import Mathlib

/-!
# Verification of the P2PLoader request lifecycle
  (src/lib/integration/p2p-loader-generator.js)

Shallow embedding of the `P2PLoader` class returned by `P2PLoaderGenerator`.
The class is a per-fragment request adapter: `load` issues a transfer to the
hybrid backend, `loadSuccess` / `loadError` / `loadProgress` / `loadTimeout`
are the backend/timer callbacks, `abort` / `destroy` cancel, `reset` clears
timers and the backend handle.

Modelling decisions:
* JS numbers (timestamps, delays, byte counts, durations) are `ℚ`; the only
  arithmetic is +, -, *, /2, min — exact on `ℚ`.
* JS `undefined` / `null` / `NaN` number fields are `Option ℚ` with `none`
  (the source never distinguishes `null` from `undefined` on a path any claim
  touches, except `stats.tfirst` right after a `load` that throws from
  `loadInternal`, where no claim observes the difference).
* Timers are modelled by their armed-ness (`Bool`); `clearTimeout` on a fired
  or null id is a no-op, so armed-ness is the whole observable state.
* Each call to the backend (`peerAgentModule.getSegment`) appends a
  `Transfer` record; `transfers` remembers for every issued transfer whether
  it was cancelled (`abort` was requested on its handle) and whether it has
  already delivered its terminal callback.  The backend contract says each
  issued transfer delivers at most one terminal callback (success xor error),
  possibly late, i.e. after cancellation; this is the admissibility relation
  `admissible`.
* A JS `throw` (precondition failures in `load`, the consistency check in
  `loadInternal`, `TypeError`s from touching fields of an undefined `stats`)
  is the `threw` flag of a step result; the state mutations already performed
  before the throw are kept, as in JS.
* Host-facing callback invocations and the arguments handed to `setTimeout` /
  `getSegment` are recorded as outputs (`Out`) of each step.
* Each event carries one `performance.now()` value; the two `now()` calls
  inside `loadSuccess` (one for the back-dating, one for `tload`) happen in
  the same synchronous handler and are modelled as the same timestamp.
-/

/-- Backend-reported stats object passed to `loadSuccess`. -/
structure BackendStats where
  p2pDuration : ℚ
  cdnDuration : ℚ
  p2pDownloaded : ℚ
deriving Repr, DecidableEq

/-- Backend progress sample passed to `loadProgress`; `none` models an absent
(JS `undefined`) field. -/
structure ProgressEvent where
  cdnDownloaded : Option ℚ := none
  p2pDownloaded : Option ℚ := none
deriving Repr, DecidableEq

/-- JS truthiness of an optional number: `undefined` and `0` are falsy. -/
def truthy : Option ℚ → Bool
  | none => false
  | some v => v != 0

/-- `Math.min` on the rationals, written with an explicit `if` so that the
kernel can evaluate it on concrete inputs. -/
def qmin (a b : ℚ) : ℚ := if a ≤ b then a else b

/-- `Math.max` on the rationals. -/
def qmax (a b : ℚ) : ℚ := if a ≤ b then b else a

/-- The `this.stats` record (host-facing Stats). `load` creates it as
`{ trequest: performance.now(), retry: 0 }`; the remaining fields are the
model's `none`/`0`/`false` defaults standing for JS `undefined`. -/
structure Stats where
  trequest : ℚ
  tfirst : Option ℚ := none
  tload : Option ℚ := none
  loaded : ℚ := 0
  retry : ℕ := 0
  aborted : Bool := false
deriving Repr, DecidableEq

/-- The fragment argument of `load`; `none` offsets model `undefined`/`NaN`
(for which `isNaN` is `true`). -/
structure Frag where
  byteRangeStartOffset : Option ℚ := none
  byteRangeEndOffset : Option ℚ := none
  level : ℕ := 0
  sn : ℕ := 0
  start : ℚ := 0
deriving Repr, DecidableEq

/-- Instance fields of a `P2PLoader` object.  `byteRange` stores the
`start + '-' + end` string as the pair of offsets; `cbs` is an opaque
identity for the stored host callback tuple (onSuccess/onError/onTimeout/
onProgress); `requestTimeout` / `retryTimeout` record whether the deadline /
retry-delay timer is armed; `peerAgentLoader` holds the index of the
in-flight transfer when a backend handle is stored. -/
structure P2PLoader where
  byteRange : Option (ℚ × ℚ) := none
  frag : Option Frag := none
  url : String := ""
  responseType : String := ""
  cbs : Option ℕ := none
  stats : Option Stats := none
  timeout : ℚ := 0
  maxRetry : ℕ := 0
  retryDelay : ℚ := 0
  requestTimeout : Bool := false
  retryTimeout : Bool := false
  peerAgentLoader : Option ℕ := none
deriving Repr, DecidableEq

/-- `reset(cancelRetry = true)`: clear the deadline timer unconditionally,
clear the retry timer only on a full reset, drop the backend handle. -/
def P2PLoader.reset (l : P2PLoader) (cancelRetry : Bool := true) : P2PLoader :=
  let l := { l with requestTimeout := false }
  let l := if cancelRetry then { l with retryTimeout := false } else l
  { l with peerAgentLoader := none }

/-- Bookkeeping for one transfer issued to the backend. -/
structure Transfer where
  cancelled : Bool := false
  terminated : Bool := false
deriving Repr, DecidableEq

/-- Whole-system state: the loader instance, whether
`hlsjsWrapper.peerAgentModule` exists, and the issued transfers. -/
structure Sys where
  loader : P2PLoader := {}
  peerAgentModule : Bool := true
  transfers : List Transfer := []
deriving Repr, DecidableEq

/-- Arguments of one `load(url, responseType, onSuccess, onError, onTimeout,
timeout, maxRetry, retryDelay, onProgress, frag)` call.  `hasOnProgress`
models the truthiness of the progress callback, `cbs` the identity of the
callback tuple. -/
structure LoadArgs where
  url : String := ""
  responseType : String := ""
  hasOnProgress : Bool := true
  frag : Option Frag := none
  timeout : ℚ := 0
  maxRetry : ℕ := 0
  retryDelay : ℚ := 0
  cbs : ℕ := 0
deriving Repr, DecidableEq

/-- Observable outputs of a step: the request descriptor handed to the
backend (only its Range header matters to any claim: `none` = no Range
header, `some (s, e)` = `bytes=s-e` where a `none` component renders as
`NaN`), the delays handed to `setTimeout`, and the four host-facing
callback invocations. -/
inductive Out where
  | issued (range : Option (Option ℚ × Option ℚ))
  | armedDeadline (d : ℚ)
  | armedRetry (d : ℚ)
  | success (st : Stats)
  | error (status : ℕ)
  | timeoutCb (st : Option Stats)
  | progress (e : ProgressEvent) (st : Stats)
deriving Repr, DecidableEq

/-- Result of running one event handler: the new state, the outputs emitted,
and whether the handler threw. -/
structure StepRes where
  sys : Sys
  out : List Out
  threw : Bool
deriving Repr, DecidableEq

/-- Mark transfer `i` as having delivered its terminal callback. -/
def markTerm : List Transfer → ℕ → List Transfer
  | [], _ => []
  | tr :: rest, 0 => { tr with terminated := true } :: rest
  | tr :: rest, n + 1 => tr :: markTerm rest n

/-- Mark transfer `i` as cancelled (its handle's `abort()` was called). -/
def markCancel : List Transfer → ℕ → List Transfer
  | [], _ => []
  | tr :: rest, 0 => { tr with cancelled := true } :: rest
  | tr :: rest, n + 1 => tr :: markCancel rest n

/-- `loadInternal()`: throws if a backend handle is live; otherwise computes
the Range header (from the *current* frag, guarded by the *stored*
`byteRange`), resets `tfirst`/`loaded`, arms the deadline timer and issues
the transfer, storing the returned handle.  A missing `frag` or `stats`
would be a JS `TypeError` before any mutation. -/
def loadInternal (s : Sys) : StepRes :=
  if s.loader.peerAgentLoader.isSome then ⟨s, [], true⟩
  else
    match s.loader.frag, s.loader.stats with
    | some frag, some st =>
      let range : Option (Option ℚ × Option ℚ) :=
        if s.loader.byteRange.isSome then
          some (frag.byteRangeStartOffset, frag.byteRangeEndOffset.map (fun e => e - 1))
        else none
      let st := { st with tfirst := none, loaded := 0 }
      let l := { s.loader with
                  stats := some st,
                  requestTimeout := true,
                  peerAgentLoader := some s.transfers.length }
      ⟨{ s with loader := l, transfers := s.transfers ++ [{}] },
        [.issued range, .armedDeadline s.loader.timeout], false⟩
    | _, _ => ⟨s, [], true⟩

/-- `load(...)`: the three precondition checks (progress callback, frag,
peer-agent module) throw before any mutation; then the instance fields are
overwritten (note `byteRange` is only *set*, never cleared), a fresh Stats
record replaces the old one, and `loadInternal` runs synchronously. -/
def stepLoad (s : Sys) (a : LoadArgs) (now : ℚ) : StepRes :=
  if !a.hasOnProgress then ⟨s, [], true⟩
  else if a.frag.isNone then ⟨s, [], true⟩
  else if !s.peerAgentModule then ⟨s, [], true⟩
  else
    match a.frag with
    | none => ⟨s, [], true⟩
    | some frag =>
      let l := s.loader
      let l :=
        match frag.byteRangeStartOffset, frag.byteRangeEndOffset with
        | some bs, some be => { l with byteRange := some (bs, be) }
        | _, _ => l
      let l := { l with
                  frag := some frag,
                  url := a.url,
                  responseType := a.responseType,
                  cbs := some a.cbs,
                  stats := some { trequest := now, retry := 0 },
                  timeout := a.timeout,
                  maxRetry := a.maxRetry,
                  retryDelay := a.retryDelay }
      loadInternal { s with loader := l }

/-- `loadSuccess(segmentData, stats)` for transfer `i`: the callback running
at all consumes the transfer's terminal; if `this.stats.aborted` the handler
returns without any host callback; otherwise, when the backend-reported
combined duration is positive and peer bytes were downloaded, `trequest` is
back-dated by the combined duration and `tfirst` set `min(srTime/2, 10)`
after it; `tload` is set to now, the host success callback fires, and a full
reset runs. -/
def stepBackendSuccess (s : Sys) (i : ℕ) (b : BackendStats) (now : ℚ) : StepRes :=
  let s := { s with transfers := markTerm s.transfers i }
  match s.loader.stats with
  | none => ⟨s, [], true⟩
  | some st =>
    if st.aborted then ⟨s, [], false⟩
    else
      let st :=
        if 0 < b.p2pDuration + b.cdnDuration ∧ 0 < b.p2pDownloaded then
          let srTime := b.p2pDuration + b.cdnDuration
          let latency := qmin (srTime / 2) 10
          { st with trequest := now - srTime, tfirst := some (now - srTime + latency) }
        else st
      let st := { st with tload := some now }
      ⟨{ s with loader := P2PLoader.reset { s.loader with stats := some st } true },
        [.success st], false⟩

/-- `loadError(httpError)` for transfer `i`: consumes the terminal; if
aborted, swallowed; within the retry budget it arms the retry-delay timer
with the *current* `retryDelay`, then doubles the delay (capped at 64000),
increments `stats.retry` and performs the partial reset `reset(false)`;
with the budget exhausted it fires the host error callback and fully
resets. -/
def stepBackendError (s : Sys) (i : ℕ) (status : ℕ) : StepRes :=
  let s := { s with transfers := markTerm s.transfers i }
  match s.loader.stats with
  | none => ⟨s, [], true⟩
  | some st =>
    if st.aborted then ⟨s, [], false⟩
    else if st.retry < s.loader.maxRetry then
      let armed := s.loader.retryDelay
      let l := { s.loader with
                  retryTimeout := true,
                  retryDelay := qmin (2 * s.loader.retryDelay) 64000,
                  stats := some { st with retry := st.retry + 1 } }
      ⟨{ s with loader := P2PLoader.reset l false }, [.armedRetry armed], false⟩
    else
      ⟨{ s with loader := P2PLoader.reset s.loader true }, [.error status], false⟩

/-- `loadProgress(event)`: overwrites `stats.loaded` with the sum of the
truthy per-source byte counts of *this* sample, sets the provisional
`tfirst` on the first sample of an attempt, and forwards unconditionally
(no aborted check). -/
def stepProgress (s : Sys) (e : ProgressEvent) (now : ℚ) : StepRes :=
  match s.loader.stats with
  | none => ⟨s, [], true⟩
  | some st =>
    let loaded :=
      (if truthy e.cdnDownloaded then e.cdnDownloaded.getD 0 else 0)
      + (if truthy e.p2pDownloaded then e.p2pDownloaded.getD 0 else 0)
    let st := { st with loaded := loaded }
    let st :=
      if st.tfirst = none then { st with tfirst := some (qmax now st.trequest) } else st
    ⟨{ s with loader := { s.loader with stats := some st } }, [.progress e st], false⟩

/-- `abort()`: when a handle is live, set `stats.aborted` and cancel the
transfer (a missing `stats` would be a `TypeError` before the reset); always
perform a full reset. -/
def stepAbort (s : Sys) : StepRes :=
  match s.loader.peerAgentLoader with
  | some i =>
    match s.loader.stats with
    | none => ⟨s, [], true⟩
    | some st =>
      let l := { s.loader with stats := some { st with aborted := true } }
      ⟨{ s with loader := P2PLoader.reset l true, transfers := markCancel s.transfers i },
        [], false⟩
  | none => ⟨{ s with loader := P2PLoader.reset s.loader true }, [], false⟩

/-- The deadline timer fires (`loadTimeout`): the host timeout callback gets
`(null, this.stats)`; nothing is reset or retried. -/
def stepFireRequestTimeout (s : Sys) : StepRes :=
  let s := { s with loader := { s.loader with requestTimeout := false } }
  ⟨s, [.timeoutCb s.loader.stats], false⟩

/-- The retry-delay timer fires: `loadInternal` runs. -/
def stepFireRetryTimeout (s : Sys) : StepRes :=
  loadInternal { s with loader := { s.loader with retryTimeout := false } }

/-- External events driving one loader instance: host calls (`load`,
`abort`, `destroy`), backend callbacks for an issued transfer `i`, and the
two timers firing.  `now` is the value `performance.now()` yields during
that handler. -/
inductive Ev where
  | load (a : LoadArgs) (now : ℚ)
  | backendSuccess (i : ℕ) (b : BackendStats) (now : ℚ)
  | backendError (i : ℕ) (status : ℕ)
  | backendProgress (i : ℕ) (e : ProgressEvent) (now : ℚ)
  | fireRequestTimeout
  | fireRetryTimeout
  | abort
  | destroy
deriving Repr, DecidableEq

/-- One event handler, dispatched.  `destroy()` just calls `abort()`. -/
def step (s : Sys) : Ev → StepRes
  | .load a now => stepLoad s a now
  | .backendSuccess i b now => stepBackendSuccess s i b now
  | .backendError i st => stepBackendError s i st
  | .backendProgress _ e now => stepProgress s e now
  | .fireRequestTimeout => stepFireRequestTimeout s
  | .fireRetryTimeout => stepFireRetryTimeout s
  | .abort => stepAbort s
  | .destroy => stepAbort s

/-- Transfer `i` of the list was issued and has not yet delivered its
terminal callback. -/
def activeAt (l : List Transfer) (i : ℕ) : Bool :=
  match l.get? i with
  | some tr => !tr.terminated
  | none => false

/-- Transfer `i` was issued and has not yet delivered its terminal callback
(cancelled transfers may still deliver late callbacks). -/
def activeTransfer (s : Sys) (i : ℕ) : Bool := activeAt s.transfers i

/-- Which events the environment can deliver in a given state: backend
callbacks only for issued, not-yet-terminated transfers (and the terminal is
delivered at most once per transfer — the backend interface contract); timer
firings only while the timer is armed; host calls always. -/
def admissible (s : Sys) : Ev → Bool
  | .load _ _ => true
  | .backendSuccess i _ _ => activeTransfer s i
  | .backendError i _ => activeTransfer s i
  | .backendProgress i _ _ => activeTransfer s i
  | .fireRequestTimeout => s.loader.requestTimeout
  | .fireRetryTimeout => s.loader.retryTimeout
  | .abort => true
  | .destroy => true

/-- Run a trace of events, returning the final state. -/
def runS (s : Sys) : List Ev → Sys
  | [] => s
  | e :: rest => runS (step s e).sys rest

/-- Every event of the trace is admissible in the state where it occurs. -/
def wfFrom (s : Sys) : List Ev → Bool
  | [] => true
  | e :: rest => admissible s e && wfFrom (step s e).sys rest

/-- Run a trace, keeping each event paired with the outputs its handler
emitted. -/
def runAnnot (s : Sys) : List Ev → List (Ev × List Out)
  | [] => []
  | e :: rest => (e, (step s e).out) :: runAnnot (step s e).sys rest

/-- All outputs of a trace, in order. -/
def runOuts (s : Sys) (tr : List Ev) : List Out :=
  (runAnnot s tr).flatMap (fun p => p.2)

/-- A freshly constructed loader (the constructor calls `reset()`), with the
peer-agent module initialized and no transfer issued. -/
def initSys : Sys := {}

/-- Host-facing *terminal* callbacks: success or error. -/
def isHostTerminal : Out → Bool
  | .success _ => true
  | .error _ => true
  | _ => false

/-- Number of host success/error callback invocations in an output list. -/
def hostTerminals (outs : List Out) : ℕ := (outs.filter isHostTerminal).length

def isAbortEv : Ev → Bool
  | .abort => true
  | .destroy => true
  | _ => false

def isLoadEv : Ev → Bool
  | .load _ _ => true
  | _ => false

/-- Outputs emitted by the events strictly after the first `abort`/`destroy`
of an annotated run. -/
def outsAfterFirstAbort : List (Ev × List Out) → List Out
  | [] => []
  | (e, _) :: rest =>
    if isAbortEv e then rest.flatMap (fun p => p.2) else outsAfterFirstAbort rest

/-- No `load()` call occurs after the first `abort()`/`destroy()` of the
trace. -/
def noLoadAfterAbort : List Ev → Bool
  | [] => true
  | e :: rest =>
    if isAbortEv e then rest.all (fun e2 => !isLoadEv e2) else noLoadAfterAbort rest

/-- Number of transfers of the list whose terminal callback is still
outstanding. -/
def pendList (l : List Transfer) : ℕ :=
  (l.filter (fun tr => !tr.terminated)).length

/-- Number of genuinely in-flight transfers of the list: not cancelled, not
terminated. -/
def liveList (l : List Transfer) : ℕ :=
  (l.filter (fun tr => !tr.cancelled && !tr.terminated)).length

/-- Number of cancelled transfers of the list whose (late) terminal callback
is still outstanding. -/
def cancActList (l : List Transfer) : ℕ :=
  (l.filter (fun tr => tr.cancelled && !tr.terminated)).length

/-- Number of issued transfers whose terminal callback is still outstanding. -/
def pendingCount (s : Sys) : ℕ := pendList s.transfers

/-- Number of genuinely in-flight transfers: issued, not cancelled, not
terminated. -/
def liveCount (s : Sys) : ℕ := liveList s.transfers

/-- The `aborted` flag of the current Stats record (`false` when no Stats
record exists yet). -/
def statsAborted (s : Sys) : Bool :=
  match s.loader.stats with
  | some st => st.aborted
  | none => false

/-- A backend handle is stored. -/
def handleLive (s : Sys) : Bool := s.loader.peerAgentLoader.isSome

/-- Projection of an output to the `loaded` field reported by a host-facing
progress or success callback. -/
def loadedOf : Out → Option ℚ
  | .progress _ st => some st.loaded
  | .success st => some st.loaded
  | _ => none

/-- The `loaded` byte counts reported to the host, in order. -/
def loadedList (outs : List Out) : List ℚ := outs.filterMap loadedOf

/-- The Range headers of the request descriptors handed to the backend, in
order. -/
def issuedList (outs : List Out) : List (Option (Option ℚ × Option ℚ)) :=
  outs.filterMap (fun o => match o with | .issued r => some r | _ => none)

/-- The delays the retry-delay timer was armed with, in order. -/
def armedRetryList (outs : List Out) : List ℚ :=
  outs.filterMap (fun o => match o with | .armedRetry x => some x | _ => none)

/-- No `load()` call occurs while the retry-delay timer is armed. -/
def noLoadWhileRetry (s : Sys) : List Ev → Bool
  | [] => true
  | e :: rest =>
    !(isLoadEv e && s.loader.retryTimeout) && noLoadWhileRetry (step s e).sys rest

/-- The backend owes no terminal callback and no timer is armed: the
environment has delivered everything it ever will. -/
def completeB (s : Sys) : Bool :=
  (pendingCount s == 0) && !s.loader.requestTimeout && !s.loader.retryTimeout

/-- A `load` whose three preconditions pass. -/
def loadOk (a : LoadArgs) : Bool := a.hasOnProgress && a.frag.isSome

/-! ### Invariants of the lifecycle state machine -/

/-- Invariant of an execution that has not yet seen `abort`/`destroy`:
the aborted flag is off, exactly the handle's transfer awaits its terminal
callback, and a live handle implies a Stats record exists. -/
def PreA (s : Sys) : Prop :=
  statsAborted s = false
  ∧ pendingCount s = (if handleLive s then 1 else 0)
  ∧ (handleLive s = true → s.loader.stats.isSome = true)

/-- Invariant after an `abort`: either the aborted flag is set (so the
terminal handlers swallow everything), or nothing is outstanding at all. -/
def QuietInv (s : Sys) : Prop :=
  statsAborted s = true
  ∨ (pendingCount s = 0 ∧ s.loader.requestTimeout = false ∧ s.loader.retryTimeout = false)

/-- The stored handle, when present, points at an issued transfer that is
neither cancelled nor terminated. -/
def handleOk (s : Sys) : Prop :=
  ∀ i, s.loader.peerAgentLoader = some i →
    ∃ tr, s.transfers.get? i = some tr ∧ tr.cancelled = false ∧ tr.terminated = false

/-- Single-flight invariant before any `abort`: exactly the handle's
transfer is genuinely in flight, no cancelled transfer is outstanding, the
deadline timer is armed only while the handle is live and the retry timer
only while it is not. -/
def I2a (s : Sys) : Prop :=
  statsAborted s = false
  ∧ liveCount s = (if handleLive s then 1 else 0)
  ∧ cancActList s.transfers = 0
  ∧ (s.loader.requestTimeout = true → handleLive s = true)
  ∧ (s.loader.retryTimeout = true → handleLive s = false)
  ∧ (handleLive s = true → s.loader.stats.isSome = true)
  ∧ handleOk s

/-- Single-flight invariant after the first `abort`: no handle, nothing in
flight, no timer armed, and either the aborted flag is set or no terminal
callback is owed. -/
def I2b (s : Sys) : Prop :=
  handleLive s = false
  ∧ liveCount s = 0
  ∧ s.loader.requestTimeout = false
  ∧ s.loader.retryTimeout = false
  ∧ (statsAborted s = true ∨ pendingCount s = 0)

/-- Invariant of one non-aborted `load()` generation while no host terminal
callback has fired yet: the attempt is either in flight (handle live, its
terminal owed, retry timer off) or waiting for the retry timer (nothing
owed, retry timer armed). -/
def Alive (s : Sys) : Prop :=
  statsAborted s = false
  ∧ s.loader.stats.isSome = true
  ∧ s.loader.frag.isSome = true
  ∧ cancActList s.transfers = 0
  ∧ ((handleLive s = true ∧ pendingCount s = 1 ∧ s.loader.retryTimeout = false)
     ∨ (handleLive s = false ∧ pendingCount s = 0 ∧ s.loader.retryTimeout = true))

/-- Invariant after the single host terminal callback of a generation:
nothing outstanding, nothing armed. -/
def Done (s : Sys) : Prop :=
  pendingCount s = 0
  ∧ s.loader.requestTimeout = false
  ∧ s.loader.retryTimeout = false
  ∧ handleLive s = false

/-! ### Concrete fixtures and traces for the individual claims -/

/-- A Stats record as a fresh `load()` creates it. -/
def stWit : Stats := { trequest := 0 }

/-- A loader holding a Stats record (as after a successful `load`). -/
def sWit : Sys := { loader := { stats := some stWit } }

/-- Backend stats with nonzero combined duration and peer bytes. -/
def bWit : BackendStats := { p2pDuration := 3, cdnDuration := 1, p2pDownloaded := 5 }

/-- Backend stats reporting nothing. -/
def bZero : BackendStats := { p2pDuration := 0, cdnDuration := 0, p2pDownloaded := 0 }

/-- A loader with a pending retry timer and some state to be framed. -/
def lWit : P2PLoader := { url := "w", retryTimeout := true }

/-- A system about to take the retry branch of `loadError`. -/
def sErrWit : Sys := { loader := { stats := some stWit, maxRetry := 1, retryDelay := 5 } }

/-- Plain valid `load` arguments. -/
def argsPlain : LoadArgs :=
  { url := "u", frag := some {}, timeout := 100, maxRetry := 2, retryDelay := 1000 }

/-- `load` arguments missing the progress callback. -/
def noProgArgs : LoadArgs := { hasOnProgress := false, frag := some {} }

/-- A progress sample reporting 100 origin-sourced bytes. -/
def prog100 : ProgressEvent := { cdnDownloaded := some 100 }

/-- C1 counterexample trace: `load`, `abort`, a second `load`, then the
late success callback of the first (cancelled) transfer. -/
def c1Trace : List Ev :=
  [.load argsPlain 0, .abort, .load argsPlain 1, .backendSuccess 0 bZero 2]

/-- C1 witness trace: `load`, `abort`, then the late success callback of
the cancelled transfer, with no further `load`. -/
def c1WitTrace : List Ev := [.load argsPlain 0, .abort, .backendSuccess 0 bZero 2]

/-- C2 counterexample trace: a `load` issued while the retry-delay timer of
the previous generation is still armed. -/
def c2Trace : List Ev := [.load argsPlain 0, .backendError 0 500, .load argsPlain 1]

/-- A complete single-generation trace: one failure, the scheduled retry,
then success. -/
def oneRetryTrace : List Ev :=
  [.load argsPlain 0, .backendError 0 500, .fireRetryTimeout, .backendSuccess 1 bZero 9]

/-- Events after the initial `load` of a complete one-retry generation:
one failure, the scheduled retry, then success. -/
def c6Rest : List Ev :=
  [.backendError 0 500, .fireRetryTimeout, .backendSuccess 1 bZero 9]

/-- C5 counterexample trace: two progress samples of 100 bytes each. -/
def c5Trace : List Ev :=
  [.load argsPlain 0, .backendProgress 0 prog100 1, .backendProgress 0 prog100 2]

/-- A fragment with byte-range offsets 100 and 200. -/
def fragRange : Frag := { byteRangeStartOffset := some 100, byteRangeEndOffset := some 200 }

/-- `load` arguments carrying `fragRange`. -/
def rangeArgs : LoadArgs := { frag := some fragRange }

/-- `load` arguments whose fragment has no byte-range offsets. -/
def noRangeArgs : LoadArgs := { frag := some {} }

/-- C8 counterexample trace: a ranged `load`, an `abort`, then a `load`
without offsets — the stale `byteRange` still attaches a Range header. -/
def c8Trace : List Ev := [.load rangeArgs 0, .abort, .load noRangeArgs 1]

/-- A system with a live backend handle (transfer 0 in flight). -/
def sBusy : Sys :=
  { loader := { url := "old", stats := some stWit, requestTimeout := true,
                peerAgentLoader := some 0 },
    transfers := [{}] }

/-- Arguments of a re-entrant `load` against `sBusy`. -/
def busyArgs : LoadArgs :=
  { url := "new", responseType := "arraybuffer", frag := some {}, timeout := 7,
    maxRetry := 3, retryDelay := 9, cbs := 2 }

/-! ### C3 fixtures: failure sequences and the backoff ladder -/

/-- `load` arguments for the backoff scenario: initial retry delay `d`,
retry budget `m`. -/
def retryArgs (d : ℚ) (m : ℕ) : LoadArgs :=
  { frag := some {}, maxRetry := m, retryDelay := d }

/-- The event suffix delivering `n` backend failures, with the scheduled
retry fired between consecutive failures. -/
def failSeq : ℕ → List Ev
  | 0 => []
  | n + 1 =>
    failSeq n ++
      (if n = 0 then [Ev.backendError 0 500]
       else [Ev.fireRetryTimeout, Ev.backendError n 500])

/-- One `load` with delay `d` and budget `m`, followed by `n` failures. -/
def retryTrace (d : ℚ) (m n : ℕ) : List Ev := .load (retryArgs d m) 0 :: failSeq n

/-- The stored `retryDelay` after `n` failures: the initial delay `d`
doubles on each failure, capped at 64000 ms; note the cap is applied only
from the first doubling on, so `storedDelay d 0 = d` even when
`d > 64000`. -/
def storedDelay (d : ℚ) : ℕ → ℚ
  | 0 => d
  | n + 1 => min (2 ^ (n + 1) * d) 64000

/-- A terminated transfer record. -/
def doneTr : Transfer := { cancelled := false, terminated := true }

/-- The loader state after `retryTrace d m n` for `1 ≤ n ≤ m`: waiting in
the retry-pending phase with `n` failures recorded. -/
def retryStateSys (d : ℚ) (m n : ℕ) : Sys :=
  { loader := { frag := some {}, cbs := some 0,
                stats := some { trequest := 0, retry := n },
                maxRetry := m, retryDelay := storedDelay d n,
                requestTimeout := false, retryTimeout := true,
                peerAgentLoader := none },
    transfers := List.replicate n doneTr }

/-! ## Basic lemmas about the model -/

theorem qmin_eq (a b : ℚ) : qmin a b = min a b := by
  unfold qmin
  split
  · exact (min_eq_left (by assumption)).symm
  · rename_i h
    exact (min_eq_right (le_of_not_le h)).symm

theorem qmax_eq (a b : ℚ) : qmax a b = max a b := by
  unfold qmax
  split
  · exact (max_eq_right (by assumption)).symm
  · rename_i h
    exact (max_eq_left (le_of_not_le h)).symm

theorem step_destroy (s : Sys) : step s .destroy = stepAbort s := rfl

theorem runS_append (s : Sys) (xs ys : List Ev) :
    runS s (xs ++ ys) = runS (runS s xs) ys := by
  induction xs generalizing s with
  | nil => rfl
  | cons e rest ih => simp [runS, ih]

theorem wfFrom_append (s : Sys) (xs ys : List Ev) :
    wfFrom s (xs ++ ys) = (wfFrom s xs && wfFrom (runS s xs) ys) := by
  induction xs generalizing s with
  | nil => simp [wfFrom, runS]
  | cons e rest ih => simp [wfFrom, runS, ih, Bool.and_assoc]

theorem runAnnot_append (s : Sys) (xs ys : List Ev) :
    runAnnot s (xs ++ ys) = runAnnot s xs ++ runAnnot (runS s xs) ys := by
  induction xs generalizing s with
  | nil => rfl
  | cons e rest ih => simp [runAnnot, runS, ih]

theorem runOuts_append (s : Sys) (xs ys : List Ev) :
    runOuts s (xs ++ ys) = runOuts s xs ++ runOuts (runS s xs) ys := by
  simp [runOuts, runAnnot_append]

theorem runOuts_cons (s : Sys) (e : Ev) (rest : List Ev) :
    runOuts s (e :: rest) = (step s e).out ++ runOuts (step s e).sys rest := by
  simp [runOuts, runAnnot]

theorem hostTerminals_append (xs ys : List Out) :
    hostTerminals (xs ++ ys) = hostTerminals xs + hostTerminals ys := by
  simp [hostTerminals, List.filter_append]

theorem pendList_append (l l2 : List Transfer) :
    pendList (l ++ l2) = pendList l + pendList l2 := by
  simp [pendList, List.filter_append]

theorem liveList_append (l l2 : List Transfer) :
    liveList (l ++ l2) = liveList l + liveList l2 := by
  simp [liveList, List.filter_append]

theorem cancActList_append (l l2 : List Transfer) :
    cancActList (l ++ l2) = cancActList l + cancActList l2 := by
  simp [cancActList, List.filter_append]

theorem pendList_cons (tr : Transfer) (rest : List Transfer) :
    pendList (tr :: rest) = (if tr.terminated = true then 0 else 1) + pendList rest := by
  cases h : tr.terminated <;> simp [pendList, List.filter, h] <;> omega

theorem liveList_cons (tr : Transfer) (rest : List Transfer) :
    liveList (tr :: rest) =
      (if tr.cancelled = false ∧ tr.terminated = false then 1 else 0) + liveList rest := by
  cases hc : tr.cancelled <;> cases ht : tr.terminated <;>
    simp [liveList, List.filter, hc, ht] <;> omega

theorem cancActList_cons (tr : Transfer) (rest : List Transfer) :
    cancActList (tr :: rest) =
      (if tr.cancelled = true ∧ tr.terminated = false then 1 else 0) + cancActList rest := by
  cases hc : tr.cancelled <;> cases ht : tr.terminated <;>
    simp [cancActList, List.filter, hc, ht] <;> omega

theorem activeAt_pos (l : List Transfer) (i : ℕ) (h : activeAt l i = true) :
    0 < pendList l := by
  induction l generalizing i with
  | nil => simp [activeAt] at h
  | cons tr rest ih =>
    cases i with
    | zero =>
      have h2 : tr.terminated = false := by simpa [activeAt, List.get?] using h
      rw [pendList_cons, h2]
      simp
    | succ j =>
      have := ih j (by simpa [activeAt, List.get?] using h)
      rw [pendList_cons]
      split <;> omega

theorem pendList_markTerm (l : List Transfer) (i : ℕ) (h : activeAt l i = true) :
    pendList (markTerm l i) + 1 = pendList l := by
  induction l generalizing i with
  | nil => simp [activeAt] at h
  | cons tr rest ih =>
    cases i with
    | zero =>
      have h2 : tr.terminated = false := by simpa [activeAt, List.get?] using h
      simp [markTerm, pendList_cons, h2]
      omega
    | succ j =>
      have := ih j (by simpa [activeAt, List.get?] using h)
      simp only [markTerm, pendList_cons]
      split <;> omega

theorem pendList_markCancel (l : List Transfer) (i : ℕ) :
    pendList (markCancel l i) = pendList l := by
  induction l generalizing i with
  | nil => rfl
  | cons tr rest ih =>
    cases i with
    | zero => simp [markCancel, pendList_cons]
    | succ j =>
      have := ih j
      simp only [markCancel, pendList_cons]
      omega

theorem liveList_markTerm_le (l : List Transfer) (i : ℕ) :
    liveList (markTerm l i) ≤ liveList l := by
  induction l generalizing i with
  | nil => simp [markTerm]
  | cons tr rest ih =>
    cases i with
    | zero =>
      simp only [markTerm, liveList_cons]
      split <;> split <;> simp_all <;> omega
    | succ j =>
      have := ih j
      simp only [markTerm, liveList_cons]
      split <;> omega

theorem liveList_markTerm (l : List Transfer) (i : ℕ) (tr : Transfer)
    (h : l.get? i = some tr) (hc : tr.cancelled = false) (ht : tr.terminated = false) :
    liveList (markTerm l i) + 1 = liveList l := by
  induction l generalizing i with
  | nil => simp [List.get?] at h
  | cons hd rest ih =>
    cases i with
    | zero =>
      simp [List.get?] at h
      subst h
      simp [markTerm, liveList_cons, hc, ht]
      omega
    | succ j =>
      have := ih j (by simpa [List.get?] using h)
      simp only [markTerm, liveList_cons]
      split <;> omega

theorem liveList_markCancel (l : List Transfer) (i : ℕ) (tr : Transfer)
    (h : l.get? i = some tr) (hc : tr.cancelled = false) (ht : tr.terminated = false) :
    liveList (markCancel l i) + 1 = liveList l := by
  induction l generalizing i with
  | nil => simp [List.get?] at h
  | cons hd rest ih =>
    cases i with
    | zero =>
      simp [List.get?] at h
      subst h
      simp [markCancel, liveList_cons, hc, ht]
      omega
    | succ j =>
      have := ih j (by simpa [List.get?] using h)
      simp only [markCancel, liveList_cons]
      split <;> omega

theorem cancActList_markTerm_le (l : List Transfer) (i : ℕ) :
    cancActList (markTerm l i) ≤ cancActList l := by
  induction l generalizing i with
  | nil => simp [markTerm]
  | cons tr rest ih =>
    cases i with
    | zero =>
      simp only [markTerm, cancActList_cons]
      split <;> split <;> simp_all <;> omega
    | succ j =>
      have := ih j
      simp only [markTerm, cancActList_cons]
      split <;> omega

theorem pendList_split (l : List Transfer) :
    pendList l = liveList l + cancActList l := by
  induction l with
  | nil => rfl
  | cons tr rest ih =>
    rw [pendList_cons, liveList_cons, cancActList_cons]
    cases hc : tr.cancelled <;> cases ht : tr.terminated <;> simp [hc, ht] <;> omega

theorem activeAt_uncancelled (l : List Transfer) (i : ℕ)
    (hz : cancActList l = 0) (ha : activeAt l i = true) :
    ∃ tr, l.get? i = some tr ∧ tr.cancelled = false ∧ tr.terminated = false := by
  induction l generalizing i with
  | nil => simp [activeAt] at ha
  | cons hd rest ih =>
    cases i with
    | zero =>
      have ht : hd.terminated = false := by simpa [activeAt, List.get?] using ha
      refine ⟨hd, rfl, ?_, ht⟩
      by_contra hcn
      have hc2 : hd.cancelled = true := by revert hcn; cases hd.cancelled <;> simp
      simp [cancActList_cons, hc2, ht] at hz
    | succ j =>
      have hz2 : cancActList rest = 0 := by
        rw [cancActList_cons] at hz
        split at hz <;> omega
      exact ih j hz2 (by simpa [activeAt, List.get?] using ha)

theorem get?_append_length (l : List Transfer) (x : Transfer) :
    (l ++ [x]).get? l.length = some x := by
  induction l with
  | nil => rfl
  | cons hd rest ih => simpa [List.get?] using ih

theorem truthy_getD (o : Option ℚ) :
    (if truthy o = true then o.getD 0 else 0) = o.getD 0 := by
  cases o with
  | none => simp [truthy]
  | some v => by_cases hv : v = 0 <;> simp [truthy, hv]

/-! ## C4: success-time Stats synthesis -/

/-- C4: for a backend success callback not suppressed by the aborted flag,
if the combined duration `p2pDuration + cdnDuration` is positive and
`p2pDownloaded` is positive, the Stats handed to the host success callback
have `trequest = successTime − combinedDuration`,
`tfirst = trequest + min(combinedDuration/2, 10)` (so
`tfirst − trequest = min(combinedDuration/2, 10)`) and `tload = successTime`;
otherwise `trequest` and `tfirst` are left as they were during the attempt
and only `tload` is set to the success time. -/
theorem c4_success_timing (s : Sys) (i : ℕ) (b : BackendStats) (now : ℚ) (st : Stats)
    (hst : s.loader.stats = some st) (hab : st.aborted = false) :
    ((0 < b.p2pDuration + b.cdnDuration ∧ 0 < b.p2pDownloaded) →
      (stepBackendSuccess s i b now).out =
        [Out.success { st with
            trequest := now - (b.p2pDuration + b.cdnDuration),
            tfirst := some (now - (b.p2pDuration + b.cdnDuration)
                            + min ((b.p2pDuration + b.cdnDuration) / 2) 10),
            tload := some now }])
    ∧ (¬(0 < b.p2pDuration + b.cdnDuration ∧ 0 < b.p2pDownloaded) →
      (stepBackendSuccess s i b now).out = [Out.success { st with tload := some now }]) := by
  constructor <;> intro h <;> simp [stepBackendSuccess, hst, hab, h, qmin_eq]

/-- Witness for C4 at combined duration 4, peer bytes 5, success time 50. -/
theorem c4_success_timing_witness :
    (0 < bWit.p2pDuration + bWit.cdnDuration ∧ 0 < bWit.p2pDownloaded)
    ∧ (stepBackendSuccess sWit 0 bWit 50).out =
        [Out.success { stWit with
            trequest := 50 - (bWit.p2pDuration + bWit.cdnDuration),
            tfirst := some (50 - (bWit.p2pDuration + bWit.cdnDuration)
                            + min ((bWit.p2pDuration + bWit.cdnDuration) / 2) 10),
            tload := some 50 }] :=
  ⟨⟨by norm_num [bWit], by norm_num [bWit]⟩,
   (c4_success_timing sWit 0 bWit 50 stWit rfl rfl).1
     ⟨by norm_num [bWit], by norm_num [bWit]⟩⟩

/-! ## C5: the `loaded` byte counter -/

/-- C5 counterexample: in the trace `c5Trace` two progress samples each
report 100 origin-sourced bytes; the second host progress callback reports
`loaded = 100` — the latest sample's count — not the per-sample sum
`100 + 100` demanded by the claim. -/
theorem c5_loaded_cex :
    wfFrom initSys c5Trace = true
    ∧ loadedList (runOuts initSys c5Trace) = [100, 100]
    ∧ ¬(100 : ℚ) = 100 + 100 := by
  refine ⟨by decide, ?_, by norm_num⟩
  simp [c5Trace, runOuts, runAnnot, step, stepLoad, loadInternal, stepProgress, argsPlain,
        prog100, initSys, loadedList, loadedOf, truthy, markTerm]

/-- C5 amended: the `loaded` reported by a progress callback equals the sum
of the peer-sourced and origin-sourced byte counts *of that sample* (an
absent count contributing 0) — `loadProgress` overwrites rather than
accumulates — and the success callback reports the stored `loaded`
unchanged. -/
theorem c5_loaded_latest_sample (s : Sys) (i : ℕ) (e : ProgressEvent) (b : BackendStats)
    (now now2 : ℚ) (st : Stats) (hst : s.loader.stats = some st) (hab : st.aborted = false) :
    loadedList (stepProgress s e now).out = [e.cdnDownloaded.getD 0 + e.p2pDownloaded.getD 0]
    ∧ loadedList (stepBackendSuccess s i b now2).out = [st.loaded] := by
  constructor
  · simp only [stepProgress, hst]
    split <;> simp [loadedList, loadedOf, truthy_getD]
  · simp only [stepBackendSuccess]
    simp [hst, hab, loadedList, loadedOf]
    split <;> simp

/-- Witness for C5 (amended) on a 100-byte sample and a success callback. -/
theorem c5_loaded_latest_sample_witness :
    loadedList (stepProgress sWit prog100 1).out = [100]
    ∧ loadedList (stepBackendSuccess sWit 0 bZero 2).out = [stWit.loaded] := by
  have h := c5_loaded_latest_sample sWit 0 prog100 bZero 1 2 stWit rfl rfl
  refine ⟨?_, h.2⟩
  rw [h.1]
  norm_num [prog100]

/-! ## C7: the frame of `reset(cancelRetry)` -/

/-- C7: `reset` clears the deadline timer and the handle unconditionally and
the retry-delay timer exactly when `cancelRetry` is true, leaving every
other instance field (byteRange, frag, url, responseType, stored callbacks,
Stats, timeout, maxRetry, retryDelay — and the retry timer itself when
`cancelRetry` is false) unchanged; and `loadError`'s retry branch, which
ends in `reset(false)`, leaves the retry timer it just armed still armed. -/
theorem c7_reset_frame (l : P2PLoader) (b : Bool) (s : Sys) (i status : ℕ) (st : Stats)
    (hst : s.loader.stats = some st) (hab : st.aborted = false)
    (hr : st.retry < s.loader.maxRetry) :
    P2PLoader.reset l b =
      { l with requestTimeout := false,
               retryTimeout := if b then false else l.retryTimeout,
               peerAgentLoader := none }
    ∧ (stepBackendError s i status).sys.loader.retryTimeout = true := by
  refine ⟨by cases b <;> rfl, ?_⟩
  simp [stepBackendError, hst, hab, hr, P2PLoader.reset]

/-- Witness for C7: a full reset of `lWit` and the retry branch of
`loadError` on `sErrWit`. -/
theorem c7_reset_frame_witness :
    P2PLoader.reset lWit true =
      { lWit with requestTimeout := false,
                  retryTimeout := if true then false else lWit.retryTimeout,
                  peerAgentLoader := none }
    ∧ (stepBackendError sErrWit 0 404).sys.loader.retryTimeout = true :=
  c7_reset_frame lWit true sErrWit 0 404 stWit rfl rfl (by decide)

/-! ## C9: precondition failures of `load` -/

/-- C9: a `load()` call with a missing progress callback, a missing
fragment, or an uninitialized peer-agent module throws synchronously and
changes nothing: no field is mutated, no timer armed, no transfer issued,
no output emitted. -/
theorem c9_preconditions (s : Sys) (a : LoadArgs) (now : ℚ)
    (h : a.hasOnProgress = false ∨ a.frag = none ∨ s.peerAgentModule = false) :
    stepLoad s a now = ⟨s, [], true⟩ := by
  rcases h with h | h | h <;> simp [stepLoad, h]

/-- Witness for C9: `load` without a progress callback on a fresh loader. -/
theorem c9_preconditions_witness : stepLoad initSys noProgArgs 0 = ⟨initSys, [], true⟩ :=
  c9_preconditions initSys noProgArgs 0 (Or.inl rfl)

/-! ## C10: re-entrant `load` with a live handle -/

/-- C10: a `load()` whose preconditions pass but which finds a live backend
handle throws from `loadInternal`'s consistency check, arms no timer and
issues no transfer — yet by then it has already overwritten `url`,
`responseType`, the stored callbacks, `timeout`, `maxRetry`, `retryDelay`,
`frag` and `byteRange` (when offsets are present) and replaced the Stats
record with a fresh one (`retry = 0`, `aborted` cleared), so the instance
state is not left unchanged. -/
theorem c10_reentrant_load (s : Sys) (a : LoadArgs) (now : ℚ) (j : ℕ) (frag : Frag)
    (hh : s.loader.peerAgentLoader = some j) (hp : a.hasOnProgress = true)
    (hf : a.frag = some frag) (hm : s.peerAgentModule = true) :
    stepLoad s a now =
      ⟨{ s with loader := { s.loader with
          byteRange :=
            match frag.byteRangeStartOffset, frag.byteRangeEndOffset with
            | some bs, some be => some (bs, be)
            | _, _ => s.loader.byteRange,
          frag := some frag, url := a.url, responseType := a.responseType,
          cbs := some a.cbs, stats := some { trequest := now, retry := 0 },
          timeout := a.timeout, maxRetry := a.maxRetry, retryDelay := a.retryDelay } },
        [], true⟩ := by
  cases hbs : frag.byteRangeStartOffset <;> cases hbe : frag.byteRangeEndOffset <;>
    simp [stepLoad, hp, hf, hm, loadInternal, hh, hbs, hbe]

/-- Witness for C10: re-entrant `load` against `sBusy` (handle live). -/
theorem c10_reentrant_load_witness :
    stepLoad sBusy busyArgs 5 =
      ⟨{ sBusy with loader := { sBusy.loader with
          byteRange :=
            match (Frag.byteRangeStartOffset {}), (Frag.byteRangeEndOffset {}) with
            | some bs, some be => some (bs, be)
            | _, _ => sBusy.loader.byteRange,
          frag := some {}, url := busyArgs.url, responseType := busyArgs.responseType,
          cbs := some busyArgs.cbs, stats := some { trequest := 5, retry := 0 },
          timeout := busyArgs.timeout, maxRetry := busyArgs.maxRetry,
          retryDelay := busyArgs.retryDelay } },
        [], true⟩ :=
  c10_reentrant_load sBusy busyArgs 5 0 {} rfl rfl rfl rfl

/-! ## C8: the byte-range header -/

/-- C8 counterexample: after a `load` with offsets 100/200 and an `abort`,
a second `load` whose fragment has *no* numeric offsets still attaches a
Range header (computed from the stale `byteRange` flag and the current
fragment's missing offsets, i.e. `bytes=NaN-NaN`), contradicting "a range
header exactly when both offsets are finite numbers".  The first `load`
shows the intended `bytes=100-199` encoding. -/
theorem c8_range_header_cex :
    wfFrom initSys c8Trace = true
    ∧ issuedList (runOuts initSys c8Trace) = [some (some 100, some 199), some (none, none)]
    ∧ Frag.byteRangeStartOffset {} = none
    ∧ (some (none, none) : Option (Option ℚ × Option ℚ)) ≠ none := by
  refine ⟨by decide, ?_, rfl, by simp⟩
  simp [c8Trace, runOuts, runAnnot, step, stepLoad, loadInternal, stepAbort, rangeArgs,
        noRangeArgs, fragRange, initSys, issuedList, P2PLoader.reset, markCancel]
  norm_num

/-- C8 amended: the descriptor issued by a (non-throwing) `load()` carries a
Range header when both of the fragment's range offsets are numbers — and
then it is the half-open range `bytes=start-(end−1)` — or when a previous
`load()` on the same instance stored a `byteRange` (the flag is never
cleared), in which case the header is built from the current fragment's
offsets (`NaN` components when they are absent); with no stored `byteRange`
and missing offsets, no header is attached. -/
theorem c8_range_header (s : Sys) (a : LoadArgs) (now : ℚ) (frag : Frag)
    (hp : a.hasOnProgress = true) (hf : a.frag = some frag) (hm : s.peerAgentModule = true)
    (hnh : s.loader.peerAgentLoader = none) :
    (stepLoad s a now).out =
      [Out.issued
        (match frag.byteRangeStartOffset, frag.byteRangeEndOffset with
         | some bs, some be => some (some bs, some (be - 1))
         | _, _ =>
           if s.loader.byteRange.isSome then
             some (frag.byteRangeStartOffset,
                   frag.byteRangeEndOffset.map (fun e => e - 1))
           else none),
       Out.armedDeadline a.timeout] := by
  cases hbs : frag.byteRangeStartOffset <;> cases hbe : frag.byteRangeEndOffset <;>
    simp [stepLoad, hp, hf, hm, loadInternal, hnh, hbs, hbe]

/-- Witness for C8 (amended): offsets 100/200 on a fresh loader yield the
header `bytes=100-199`. -/
theorem c8_range_header_witness :
    (stepLoad initSys rangeArgs 0).out =
      [Out.issued (some (some 100, some 199)), Out.armedDeadline rangeArgs.timeout] := by
  have h := c8_range_header initSys rangeArgs 0 fragRange rfl rfl rfl rfl
  rw [h]
  norm_num [fragRange]

/-! ## C3: retry counting and exponential backoff -/

theorem armedRetryList_append (xs ys : List Out) :
    armedRetryList (xs ++ ys) = armedRetryList xs ++ armedRetryList ys := by
  simp [armedRetryList, List.filterMap_append]

theorem storedDelay_succ (d : ℚ) (n : ℕ) :
    qmin (2 * storedDelay d n) 64000 = storedDelay d (n + 1) := by
  rw [qmin_eq]
  cases n with
  | zero => rw [storedDelay, storedDelay, pow_one]
  | succ k =>
    rw [storedDelay, storedDelay,
        mul_min_of_nonneg _ _ (by norm_num : (0:ℚ) ≤ 2), min_assoc]
    have e1 : (2:ℚ) * (2 ^ (k + 1) * d) = 2 ^ (k + 1 + 1) * d := by ring
    have e2 : min ((2:ℚ) * 64000) 64000 = 64000 := min_eq_right (by norm_num)
    rw [e1, e2]

theorem markTerm_replicate (n : ℕ) :
    markTerm (List.replicate n doneTr ++ [{ cancelled := false, terminated := false }]) n =
      List.replicate (n + 1) doneTr := by
  induction n with
  | zero => simp [markTerm, doneTr]
  | succ k ih => simpa [List.replicate_succ, markTerm] using ih

theorem activeAt_replicate_append (n : ℕ) :
    activeAt (List.replicate n doneTr ++ [{ cancelled := false, terminated := false }]) n =
      true := by
  have h := get?_append_length (List.replicate n doneTr)
    { cancelled := false, terminated := false }
  rw [List.length_replicate] at h
  simp [activeAt, h]

theorem retryTrace_succ (d : ℚ) (m n : ℕ) (hn : 0 < n) :
    retryTrace d m (n + 1) =
      retryTrace d m n ++ [.fireRetryTimeout, .backendError n 500] := by
  have hne : n ≠ 0 := by omega
  simp [retryTrace, failSeq, hne]

theorem retryState_steps (d : ℚ) (m n : ℕ) (hnm : n < m) :
    runS (retryStateSys d m n) [.fireRetryTimeout, .backendError n 500] =
      retryStateSys d m (n + 1)
    ∧ wfFrom (retryStateSys d m n) [.fireRetryTimeout, .backendError n 500] = true
    ∧ runOuts (retryStateSys d m n) [.fireRetryTimeout, .backendError n 500] =
        [.issued none, .armedDeadline 0, .armedRetry (storedDelay d n)] := by
  refine ⟨?_, ?_, ?_⟩ <;>
    simp [runS, wfFrom, runOuts, runAnnot, step, stepFireRetryTimeout, loadInternal,
          stepBackendError, retryStateSys, admissible, activeTransfer,
          activeAt_replicate_append, markTerm_replicate, storedDelay_succ, hnm,
          P2PLoader.reset]

theorem retry_base (d : ℚ) (m : ℕ) (hm : 1 ≤ m) :
    runS initSys (retryTrace d m 1) = retryStateSys d m 1
    ∧ wfFrom initSys (retryTrace d m 1) = true
    ∧ runOuts initSys (retryTrace d m 1) =
        [.issued none, .armedDeadline 0, .armedRetry d] := by
  have h0 : (0:ℕ) < m := hm
  refine ⟨?_, ?_, ?_⟩ <;>
    simp [retryTrace, failSeq, runS, wfFrom, runOuts, runAnnot, step, stepLoad, retryArgs,
          loadInternal, stepBackendError, markTerm, admissible, activeTransfer, activeAt,
          initSys, retryStateSys, storedDelay, qmin_eq, pow_one, h0, P2PLoader.reset,
          doneTr]

theorem retry_run (d : ℚ) (m n : ℕ) (h1 : 1 ≤ n) (h2 : n ≤ m) :
    runS initSys (retryTrace d m n) = retryStateSys d m n
    ∧ wfFrom initSys (retryTrace d m n) = true
    ∧ armedRetryList (runOuts initSys (retryTrace d m n)) =
        (List.range n).map (storedDelay d) := by
  induction n with
  | zero => omega
  | succ n ih =>
    rcases Nat.eq_zero_or_pos n with hn | hn
    · subst hn
      obtain ⟨ha, hb, hc⟩ := retry_base d m h2
      refine ⟨ha, hb, ?_⟩
      rw [hc]
      simp [armedRetryList, List.range_succ, storedDelay]
    · obtain ⟨hs, hw, ha⟩ := ih hn (by omega)
      obtain ⟨g1, g2, g3⟩ := retryState_steps d m n (by omega)
      rw [retryTrace_succ d m n hn]
      refine ⟨?_, ?_, ?_⟩
      · rw [runS_append, hs, g1]
      · rw [wfFrom_append, hs, hw, g2]
        rfl
      · rw [runOuts_append, hs, g3, armedRetryList_append, ha]
        simp [armedRetryList, List.range_succ]

/-- C3 counterexample: with initial retry delay `d = 128000` the first
retry timer is armed with 128000 ms — the raw stored delay, to which the
64000 ms cap has not yet been applied — not the
`min(2^(n−1)·d, 64000) = 64000` the claim requires for n = 1. -/
theorem c3_backoff_cex :
    wfFrom initSys (retryTrace 128000 1 1) = true
    ∧ armedRetryList (runOuts initSys (retryTrace 128000 1 1)) = [128000]
    ∧ ¬(128000 : ℚ) = min (2 ^ (1 - 1) * 128000) 64000 := by
  obtain ⟨hs, hw, ha⟩ := retry_run 128000 1 1 le_rfl le_rfl
  refine ⟨hw, ?_, ?_⟩
  · rw [ha]
    simp [storedDelay, List.range_succ]
  · rw [show (1 - 1 : ℕ) = 0 from rfl, pow_zero, one_mul,
        min_eq_right (by norm_num : (64000:ℚ) ≤ 128000)]
    norm_num

/-- C3 amended: after the `n`-th failure (`1 ≤ n ≤ maxRetry`) the stored
retry delay equals `min(2^n·d, 64000)` and `stats.retry = n`, exactly as the
claim states; the `n`-th retry timer, however, is armed with the *previous*
stored delay `storedDelay d (n−1)`, which is the raw initial delay `d` for
`n = 1` (unclamped even when `d > 64000`) and `min(2^(n−1)·d, 64000)` for
`n ≥ 2`. -/
theorem c3_backoff (d : ℚ) (m n : ℕ) (h1 : 1 ≤ n) (h2 : n ≤ m) :
    wfFrom initSys (retryTrace d m n) = true
    ∧ (runS initSys (retryTrace d m n)).loader.retryDelay = min (2 ^ n * d) 64000
    ∧ (runS initSys (retryTrace d m n)).loader.stats = some { trequest := 0, retry := n }
    ∧ armedRetryList (runOuts initSys (retryTrace d m n)) =
        (List.range n).map (storedDelay d) := by
  obtain ⟨hs, hw, ha⟩ := retry_run d m n h1 h2
  refine ⟨hw, ?_, ?_, ha⟩
  · rw [hs]
    cases n with
    | zero => omega
    | succ k => simp [retryStateSys, storedDelay]
  · rw [hs]
    simp [retryStateSys]

/-- Witness for C3 (amended): two failures with initial delay 1000 and
budget 2. -/
theorem c3_backoff_witness :
    wfFrom initSys (retryTrace 1000 2 2) = true
    ∧ (runS initSys (retryTrace 1000 2 2)).loader.retryDelay = min (2 ^ 2 * 1000) 64000
    ∧ (runS initSys (retryTrace 1000 2 2)).loader.stats = some { trequest := 0, retry := 2 }
    ∧ armedRetryList (runOuts initSys (retryTrace 1000 2 2)) =
        (List.range 2).map (storedDelay 1000) :=
  c3_backoff 1000 2 2 (by norm_num) (by norm_num)

/-! ## Effect lemmas: each handler branch as an explicit state/output change -/

theorem reset_eq (l : P2PLoader) (b : Bool) :
    P2PLoader.reset l b =
      { l with requestTimeout := false,
               retryTimeout := if b then false else l.retryTimeout,
               peerAgentLoader := none } := by
  cases b <;> rfl

theorem stepProgress_frame (s : Sys) (st : Stats) (e : ProgressEvent) (now : ℚ)
    (hstat : s.loader.stats = some st) :
    (stepProgress s e now).sys.transfers = s.transfers
    ∧ (stepProgress s e now).sys.loader.requestTimeout = s.loader.requestTimeout
    ∧ (stepProgress s e now).sys.loader.retryTimeout = s.loader.retryTimeout
    ∧ (stepProgress s e now).sys.loader.peerAgentLoader = s.loader.peerAgentLoader
    ∧ (stepProgress s e now).sys.peerAgentModule = s.peerAgentModule
    ∧ (stepProgress s e now).sys.loader.frag = s.loader.frag
    ∧ (stepProgress s e now).sys.loader.stats.isSome = true
    ∧ statsAborted (stepProgress s e now).sys = st.aborted
    ∧ hostTerminals (stepProgress s e now).out = 0 := by
  simp only [stepProgress, hstat]
  split <;> simp [statsAborted, hostTerminals, isHostTerminal]

theorem stepBS_aborted (s : Sys) (st : Stats) (i : ℕ) (b : BackendStats) (now : ℚ)
    (hstat : s.loader.stats = some st) (hab : st.aborted = true) :
    stepBackendSuccess s i b now = ⟨{ s with transfers := markTerm s.transfers i }, [], false⟩ := by
  simp [stepBackendSuccess, hstat, hab]

theorem stepBE_aborted (s : Sys) (st : Stats) (i status : ℕ)
    (hstat : s.loader.stats = some st) (hab : st.aborted = true) :
    stepBackendError s i status = ⟨{ s with transfers := markTerm s.transfers i }, [], false⟩ := by
  simp [stepBackendError, hstat, hab]

theorem stepBS_ok (s : Sys) (st : Stats) (i : ℕ) (b : BackendStats) (now : ℚ)
    (hstat : s.loader.stats = some st) (hab : st.aborted = false) :
    ∃ st2 : Stats, stepBackendSuccess s i b now =
      ⟨{ s with
          loader := { s.loader with
            stats := some st2, requestTimeout := false,
            retryTimeout := false, peerAgentLoader := none },
          transfers := markTerm s.transfers i },
        [.success st2], false⟩
      ∧ st2.aborted = st.aborted := by
  by_cases hc : 0 < b.p2pDuration + b.cdnDuration ∧ 0 < b.p2pDownloaded
  · refine ⟨{ st with
        trequest := now - (b.p2pDuration + b.cdnDuration),
        tfirst := some (now - (b.p2pDuration + b.cdnDuration)
                        + qmin ((b.p2pDuration + b.cdnDuration) / 2) 10),
        tload := some now }, ?_, rfl⟩
    simp [stepBackendSuccess, hstat, hab, hc, reset_eq]
  · refine ⟨{ st with tload := some now }, ?_, rfl⟩
    simp [stepBackendSuccess, hstat, hab, hc, reset_eq]

theorem stepBE_retry (s : Sys) (st : Stats) (i status : ℕ)
    (hstat : s.loader.stats = some st) (hab : st.aborted = false)
    (hr : st.retry < s.loader.maxRetry) :
    stepBackendError s i status =
      ⟨{ s with
          loader := { s.loader with
            retryDelay := qmin (2 * s.loader.retryDelay) 64000,
            stats := some { st with retry := st.retry + 1 },
            requestTimeout := false, retryTimeout := true, peerAgentLoader := none },
          transfers := markTerm s.transfers i },
        [.armedRetry s.loader.retryDelay], false⟩ := by
  simp [stepBackendError, hstat, hab, hr, reset_eq]

theorem stepBE_final (s : Sys) (st : Stats) (i status : ℕ)
    (hstat : s.loader.stats = some st) (hab : st.aborted = false)
    (hr : ¬ st.retry < s.loader.maxRetry) :
    stepBackendError s i status =
      ⟨{ s with
          loader := { s.loader with
            requestTimeout := false, retryTimeout := false,
            peerAgentLoader := none },
          transfers := markTerm s.transfers i },
        [.error status], false⟩ := by
  simp [stepBackendError, hstat, hab, hr, reset_eq]

theorem stepAbort_handle (s : Sys) (st : Stats) (i : ℕ)
    (hh : s.loader.peerAgentLoader = some i) (hstat : s.loader.stats = some st) :
    stepAbort s =
      ⟨{ s with
          loader := { s.loader with
            stats := some { st with aborted := true },
            requestTimeout := false, retryTimeout := false, peerAgentLoader := none },
          transfers := markCancel s.transfers i },
        [], false⟩ := by
  simp [stepAbort, hh, hstat, reset_eq]

theorem stepAbort_nostats (s : Sys) (i : ℕ)
    (hh : s.loader.peerAgentLoader = some i) (hstat : s.loader.stats = none) :
    stepAbort s = ⟨s, [], true⟩ := by
  simp [stepAbort, hh, hstat]

theorem stepAbort_nohandle (s : Sys) (hh : s.loader.peerAgentLoader = none) :
    stepAbort s =
      ⟨{ s with
          loader := { s.loader with
            requestTimeout := false, retryTimeout := false,
            peerAgentLoader := none } },
        [], false⟩ := by
  simp [stepAbort, hh, reset_eq]

theorem loadInternal_busy (s : Sys) (j : ℕ) (hh : s.loader.peerAgentLoader = some j) :
    loadInternal s = ⟨s, [], true⟩ := by
  simp [loadInternal, hh]

theorem loadInternal_issue (s : Sys) (frag : Frag) (st : Stats)
    (hh : s.loader.peerAgentLoader = none) (hf : s.loader.frag = some frag)
    (hstat : s.loader.stats = some st) :
    loadInternal s =
      ⟨{ s with
          loader := { s.loader with
            stats := some { st with tfirst := none, loaded := 0 },
            requestTimeout := true, peerAgentLoader := some s.transfers.length },
          transfers := s.transfers ++ [{ cancelled := false, terminated := false }] },
        [.issued (if s.loader.byteRange.isSome then
            some (frag.byteRangeStartOffset, frag.byteRangeEndOffset.map (fun e => e - 1))
          else none),
         .armedDeadline s.loader.timeout], false⟩ := by
  simp [loadInternal, hh, hf, hstat]

theorem loadInternal_defect (s : Sys)
    (hh : s.loader.peerAgentLoader = none)
    (h : s.loader.frag = none ∨ s.loader.stats = none) :
    loadInternal s = ⟨s, [], true⟩ := by
  rcases h with h | h
  · simp [loadInternal, hh, h]
  · cases hf : s.loader.frag <;> simp [loadInternal, hh, h, hf]

theorem stepLoad_main (s : Sys) (a : LoadArgs) (now : ℚ) (frag : Frag)
    (hp : a.hasOnProgress = true) (hf : a.frag = some frag) (hm : s.peerAgentModule = true) :
    stepLoad s a now =
      loadInternal { s with loader := { s.loader with
          byteRange :=
            match frag.byteRangeStartOffset, frag.byteRangeEndOffset with
            | some bs, some be => some (bs, be)
            | _, _ => s.loader.byteRange,
          frag := some frag, url := a.url, responseType := a.responseType,
          cbs := some a.cbs, stats := some { trequest := now, retry := 0 },
          timeout := a.timeout, maxRetry := a.maxRetry, retryDelay := a.retryDelay } } := by
  cases hbs : frag.byteRangeStartOffset <;> cases hbe : frag.byteRangeEndOffset <;>
    simp [stepLoad, hp, hf, hm, hbs, hbe]

/-! ## C1: post-abort silence -/

theorem pendList_fresh : pendList [{ cancelled := false, terminated := false }] = 1 := rfl

theorem stepLoad_precond (s : Sys) (a : LoadArgs) (now : ℚ)
    (h : a.hasOnProgress = false ∨ a.frag = none ∨ s.peerAgentModule = false) :
    stepLoad s a now = ⟨s, [], true⟩ := by
  rcases h with h | h | h <;> simp [stepLoad, h]

theorem quiet_active (s : Sys) (i : ℕ) (hq : QuietInv s)
    (hact : activeAt s.transfers i = true) :
    ∃ st, s.loader.stats = some st ∧ st.aborted = true := by
  have hpos := activeAt_pos s.transfers i hact
  have hab : statsAborted s = true := by
    rcases hq with h | ⟨h0, h1, h2⟩
    · exact h
    · exfalso
      simp only [pendingCount] at h0
      omega
  cases hstat : s.loader.stats with
  | none => simp [statsAborted, hstat] at hab
  | some st => exact ⟨st, rfl, by simpa [statsAborted, hstat] using hab⟩

theorem quiet_abortFn (s : Sys) (hq : QuietInv s) :
    QuietInv (stepAbort s).sys ∧ hostTerminals (stepAbort s).out = 0 := by
  cases hh : s.loader.peerAgentLoader with
  | some i =>
    cases hstat : s.loader.stats with
    | none =>
      rw [stepAbort_nostats s i hh hstat]
      exact ⟨hq, by simp [hostTerminals]⟩
    | some st =>
      rw [stepAbort_handle s st i hh hstat]
      exact ⟨Or.inl (by simp [statsAborted]), by simp [hostTerminals]⟩
  | none =>
    rw [stepAbort_nohandle s hh]
    constructor
    · rcases hq with h | ⟨h0, h1, h2⟩
      · exact Or.inl (by simpa [statsAborted] using h)
      · exact Or.inr ⟨by simpa [pendingCount] using h0, by simp, by simp⟩
    · simp [hostTerminals]

theorem quiet_step (s : Sys) (e : Ev) (hq : QuietInv s) (ha : admissible s e = true)
    (hl : isLoadEv e = false) :
    QuietInv (step s e).sys ∧ hostTerminals (step s e).out = 0 := by
  cases e with
  | load a now => simp [isLoadEv] at hl
  | backendSuccess i b now =>
    obtain ⟨st, hstat, hstab⟩ :=
      quiet_active s i hq (by simpa [admissible, activeTransfer] using ha)
    simp only [step]
    rw [stepBS_aborted s st i b now hstat hstab]
    exact ⟨Or.inl (by simp [statsAborted, hstat, hstab]), by simp [hostTerminals]⟩
  | backendError i status =>
    obtain ⟨st, hstat, hstab⟩ :=
      quiet_active s i hq (by simpa [admissible, activeTransfer] using ha)
    simp only [step]
    rw [stepBE_aborted s st i status hstat hstab]
    exact ⟨Or.inl (by simp [statsAborted, hstat, hstab]), by simp [hostTerminals]⟩
  | backendProgress i e2 now =>
    cases hstat : s.loader.stats with
    | none =>
      simp only [step, stepProgress, hstat]
      exact ⟨hq, by simp [hostTerminals]⟩
    | some st =>
      obtain ⟨f1, f2, f3, f4, f5, f6, f7, f8, f9⟩ := stepProgress_frame s st e2 now hstat
      simp only [step]
      refine ⟨?_, f9⟩
      rcases hq with h | ⟨h0, h1, h2⟩
      · left
        rw [f8]
        simpa [statsAborted, hstat] using h
      · right
        refine ⟨?_, ?_, ?_⟩
        · simp only [pendingCount, f1]
          exact h0
        · rw [f2]
          exact h1
        · rw [f3]
          exact h2
  | fireRequestTimeout =>
    simp only [step, stepFireRequestTimeout]
    constructor
    · rcases hq with h | ⟨h0, h1, h2⟩
      · exact Or.inl (by simpa [statsAborted] using h)
      · exact Or.inr ⟨by simpa [pendingCount] using h0, by simp, by simpa using h2⟩
    · simp [hostTerminals, isHostTerminal]
  | fireRetryTimeout =>
    have harm : s.loader.retryTimeout = true := by simpa [admissible] using ha
    have hab : statsAborted s = true := by
      rcases hq with h | ⟨h0, h1, h2⟩
      · exact h
      · rw [h2] at harm
        exact absurd harm (by simp)
    obtain ⟨st, hstat, hstab⟩ : ∃ st, s.loader.stats = some st ∧ st.aborted = true := by
      cases hstat : s.loader.stats with
      | none => simp [statsAborted, hstat] at hab
      | some st => exact ⟨st, rfl, by simpa [statsAborted, hstat] using hab⟩
    simp only [step, stepFireRetryTimeout]
    cases hh : s.loader.peerAgentLoader with
    | some j =>
      rw [loadInternal_busy _ j (by simp [hh])]
      exact ⟨Or.inl (by simp [statsAborted, hstat, hstab]), by simp [hostTerminals]⟩
    | none =>
      cases hf : s.loader.frag with
      | none =>
        rw [loadInternal_defect _ (by simp [hh]) (Or.inl (by simp [hf]))]
        exact ⟨Or.inl (by simp [statsAborted, hstat, hstab]), by simp [hostTerminals]⟩
      | some frag =>
        rw [loadInternal_issue _ frag st (by simp [hh]) (by simp [hf]) (by simp [hstat])]
        exact ⟨Or.inl (by simp [statsAborted, hstab]),
               by simp [hostTerminals, isHostTerminal]⟩
  | abort => exact quiet_abortFn s hq
  | destroy => exact quiet_abortFn s hq

theorem preA_abortFn (s : Sys) (hp : PreA s) :
    QuietInv (stepAbort s).sys ∧ (stepAbort s).out = [] := by
  obtain ⟨h0, h1, h2⟩ := hp
  cases hh : s.loader.peerAgentLoader with
  | some i =>
    have hsome : s.loader.stats.isSome = true := h2 (by simp [handleLive, hh])
    obtain ⟨st, hstat⟩ : ∃ st, s.loader.stats = some st := by
      cases hstat : s.loader.stats with
      | none =>
        rw [hstat] at hsome
        simp at hsome
      | some st => exact ⟨st, rfl⟩
    rw [stepAbort_handle s st i hh hstat]
    exact ⟨Or.inl (by simp [statsAborted]), rfl⟩
  | none =>
    rw [stepAbort_nohandle s hh]
    refine ⟨Or.inr ⟨?_, by simp, by simp⟩, rfl⟩
    have hz : pendingCount s = 0 := by simpa [handleLive, hh] using h1
    simpa [pendingCount] using hz

theorem handleLive_of_pending (s : Sys)
    (h1 : pendingCount s = (if handleLive s then 1 else 0))
    (hpos : 0 < pendList s.transfers) : handleLive s = true := by
  cases hl : handleLive s with
  | true => rfl
  | false =>
    rw [hl] at h1
    simp [pendingCount] at h1
    omega

theorem stats_of_isSome (s : Sys) (h : s.loader.stats.isSome = true) :
    ∃ st, s.loader.stats = some st := by
  cases hstat : s.loader.stats with
  | none =>
    rw [hstat] at h
    simp at h
  | some st => exact ⟨st, rfl⟩

theorem preA_step (s : Sys) (e : Ev) (hp : PreA s) (ha : admissible s e = true)
    (hne : isAbortEv e = false) : PreA (step s e).sys := by
  obtain ⟨h0, h1, h2⟩ := hp
  cases e with
  | abort => simp [isAbortEv] at hne
  | destroy => simp [isAbortEv] at hne
  | load a now =>
    by_cases hfail : a.hasOnProgress = false ∨ a.frag = none ∨ s.peerAgentModule = false
    · simp only [step]
      rw [stepLoad_precond s a now hfail]
      exact ⟨h0, h1, h2⟩
    · push_neg at hfail
      obtain ⟨hp1, hp2, hp3⟩ := hfail
      have hp1' : a.hasOnProgress = true := by
        revert hp1
        cases a.hasOnProgress <;> simp
      have hp3' : s.peerAgentModule = true := by
        revert hp3
        cases s.peerAgentModule <;> simp
      obtain ⟨frag, hf⟩ : ∃ frag, a.frag = some frag := by
        cases hfr : a.frag with
        | none => exact absurd hfr hp2
        | some fr => exact ⟨fr, rfl⟩
      simp only [step]
      rw [stepLoad_main s a now frag hp1' hf hp3']
      cases hh : s.loader.peerAgentLoader with
      | some j =>
        rw [loadInternal_busy _ j (by simp [hh])]
        refine ⟨by simp [statsAborted], ?_, by simp⟩
        have h1' : pendList s.transfers = 1 := by
          simpa [pendingCount, handleLive, hh] using h1
        simp [pendingCount, handleLive, hh, h1']
      | none =>
        rw [loadInternal_issue _ frag { trequest := now, retry := 0 } (by simp [hh])
            (by simp) (by simp)]
        refine ⟨by simp [statsAborted], ?_, by simp⟩
        have hz : pendList s.transfers = 0 := by
          simpa [pendingCount, handleLive, hh] using h1
        simp only [pendingCount, handleLive, pendList_append, pendList_fresh, hz]
        simp
  | backendSuccess i b now =>
    have hact : activeAt s.transfers i = true := by
      simpa [admissible, activeTransfer] using ha
    have hhl := handleLive_of_pending s h1 (activeAt_pos s.transfers i hact)
    obtain ⟨st, hstat⟩ := stats_of_isSome s (h2 hhl)
    have hstab : st.aborted = false := by simpa [statsAborted, hstat] using h0
    obtain ⟨st2, heq, hab2⟩ := stepBS_ok s st i b now hstat hstab
    simp only [step]
    rw [heq]
    refine ⟨by simp [statsAborted, hab2, hstab], ?_, by simp [handleLive]⟩
    have hmt := pendList_markTerm s.transfers i hact
    have h1' : pendList s.transfers = 1 := by
      simpa [pendingCount, hhl] using h1
    simp only [pendingCount, handleLive]
    simp
    omega
  | backendError i status =>
    have hact : activeAt s.transfers i = true := by
      simpa [admissible, activeTransfer] using ha
    have hhl := handleLive_of_pending s h1 (activeAt_pos s.transfers i hact)
    obtain ⟨st, hstat⟩ := stats_of_isSome s (h2 hhl)
    have hstab : st.aborted = false := by simpa [statsAborted, hstat] using h0
    have hmt := pendList_markTerm s.transfers i hact
    have h1' : pendList s.transfers = 1 := by
      simpa [pendingCount, hhl] using h1
    simp only [step]
    by_cases hr : st.retry < s.loader.maxRetry
    · rw [stepBE_retry s st i status hstat hstab hr]
      refine ⟨by simp [statsAborted, hstab], ?_, by simp [handleLive]⟩
      simp only [pendingCount, handleLive]
      simp
      omega
    · rw [stepBE_final s st i status hstat hstab hr]
      refine ⟨by simp [statsAborted, hstat, hstab], ?_, by simp [handleLive]⟩
      simp only [pendingCount, handleLive]
      simp
      omega
  | backendProgress i e2 now =>
    cases hstat : s.loader.stats with
    | none =>
      simp only [step, stepProgress, hstat]
      exact ⟨h0, h1, h2⟩
    | some st =>
      obtain ⟨f1, f2, f3, f4, f5, f6, f7, f8, f9⟩ := stepProgress_frame s st e2 now hstat
      simp only [step]
      refine ⟨?_, ?_, ?_⟩
      · rw [f8]
        simpa [statsAborted, hstat] using h0
      · simp only [pendingCount, handleLive, f1, f4]
        simpa [pendingCount, handleLive] using h1
      · intro _
        exact f7
  | fireRequestTimeout =>
    simp only [step, stepFireRequestTimeout]
    exact ⟨by simpa [statsAborted] using h0,
           by simpa [pendingCount, handleLive] using h1,
           by simpa [handleLive] using h2⟩
  | fireRetryTimeout =>
    simp only [step, stepFireRetryTimeout]
    cases hh : s.loader.peerAgentLoader with
    | some j =>
      rw [loadInternal_busy _ j (by simp [hh])]
      exact ⟨by simpa [statsAborted] using h0,
             by simpa [pendingCount, handleLive, hh] using h1,
             by simpa [handleLive, hh] using h2⟩
    | none =>
      have hz : pendList s.transfers = 0 := by
        simpa [pendingCount, handleLive, hh] using h1
      cases hf : s.loader.frag with
      | none =>
        rw [loadInternal_defect _ (by simp [hh]) (Or.inl (by simp [hf]))]
        exact ⟨by simpa [statsAborted] using h0,
               by simpa [pendingCount, handleLive, hh] using h1,
               by simpa [handleLive, hh] using h2⟩
      | some frag =>
        cases hstat : s.loader.stats with
        | none =>
          rw [loadInternal_defect _ (by simp [hh]) (Or.inr (by simp [hstat]))]
          exact ⟨by simpa [statsAborted] using h0,
                 by simpa [pendingCount, handleLive, hh] using h1,
                 by simpa [handleLive, hh] using h2⟩
        | some st =>
          rw [loadInternal_issue _ frag st (by simp [hh]) (by simp [hf]) (by simp [hstat])]
          refine ⟨?_, ?_, by simp⟩
          · have : st.aborted = false := by simpa [statsAborted, hstat] using h0
            simp [statsAborted, this]
          · simp only [pendingCount, handleLive, pendList_append, pendList_fresh, hz]
            simp

theorem quiet_run (tr : List Ev) (s : Sys) (hq : QuietInv s) (hwf : wfFrom s tr = true)
    (hnl : tr.all (fun e => !isLoadEv e) = true) :
    hostTerminals (runOuts s tr) = 0 := by
  induction tr generalizing s with
  | nil => simp [runOuts, runAnnot, hostTerminals]
  | cons e rest ih =>
    simp only [wfFrom, Bool.and_eq_true] at hwf
    simp only [List.all_cons, Bool.and_eq_true] at hnl
    obtain ⟨hq2, hz⟩ := quiet_step s e hq hwf.1 (by simpa using hnl.1)
    rw [runOuts_cons, hostTerminals_append, hz, ih _ hq2 hwf.2 hnl.2]

theorem c1_main (tr : List Ev) (s : Sys) (hp : PreA s) (hwf : wfFrom s tr = true)
    (hnl : noLoadAfterAbort tr = true) :
    hostTerminals (outsAfterFirstAbort (runAnnot s tr)) = 0 := by
  induction tr generalizing s with
  | nil => simp [runAnnot, outsAfterFirstAbort, hostTerminals]
  | cons e rest ih =>
    simp only [wfFrom, Bool.and_eq_true] at hwf
    cases habe : isAbortEv e with
    | true =>
      have hstep : QuietInv (step s e).sys := by
        cases e <;> simp [isAbortEv] at habe <;>
          exact (preA_abortFn s hp).1
      have hnl2 : rest.all (fun x => !isLoadEv x) = true := by
        simpa [noLoadAfterAbort, habe] using hnl
      simp only [runAnnot, outsAfterFirstAbort, habe, if_true]
      exact quiet_run rest (step s e).sys hstep hwf.2 hnl2
    | false =>
      have hnl2 : noLoadAfterAbort rest = true := by
        simpa [noLoadAfterAbort, habe] using hnl
      simp only [runAnnot, outsAfterFirstAbort, habe, Bool.false_eq_true, if_false]
      exact ih _ (preA_step s e hp hwf.1 habe) hwf.2 hnl2

/-- C1 counterexample: in `c1Trace` the host calls `load`, then `abort`
(cancelling transfer 0), then `load` again; the late success callback of the
cancelled transfer 0 arrives after the abort — and it *does* invoke the host
success callback, because the second `load` replaced the Stats record and
thereby cleared the `aborted` flag. -/
theorem c1_abort_cex :
    wfFrom initSys c1Trace = true
    ∧ ¬ hostTerminals (outsAfterFirstAbort (runAnnot initSys c1Trace)) = 0 := by
  exact ⟨by decide, by decide⟩

/-- C1 amended: in every admissible execution in which no `load()` call
occurs after the first `abort()`/`destroy()`, no backend success or error
callback arriving after that abort invokes the host-facing success or error
callback: `abort()` marks the Stats record aborted when a transfer handle is
live, `loadSuccess`/`loadError` return immediately when the aborted flag is
set, and the remaining post-abort states have nothing outstanding. -/
theorem c1_abort_suppresses (tr : List Ev) (hwf : wfFrom initSys tr = true)
    (hnl : noLoadAfterAbort tr = true) :
    hostTerminals (outsAfterFirstAbort (runAnnot initSys tr)) = 0 :=
  c1_main tr initSys ⟨rfl, rfl, fun h => by simp [handleLive, initSys] at h⟩ hwf hnl

/-- Witness for C1 (amended): `load`, `abort`, then a late backend success —
swallowed. -/
theorem c1_abort_suppresses_witness :
    wfFrom initSys c1WitTrace = true
    ∧ noLoadAfterAbort c1WitTrace = true
    ∧ hostTerminals (outsAfterFirstAbort (runAnnot initSys c1WitTrace)) = 0 :=
  ⟨by decide, by decide, c1_abort_suppresses c1WitTrace (by decide) (by decide)⟩

/-! ## C2: single-flight invariant and timer mutual exclusion -/

theorem liveList_fresh : liveList [{ cancelled := false, terminated := false }] = 1 := rfl

theorem cancActList_fresh : cancActList [{ cancelled := false, terminated := false }] = 0 := rfl

theorem handleLive_of_liveCount (s : Sys)
    (hL : liveCount s = if handleLive s then 1 else 0) (hpos : 0 < liveCount s) :
    handleLive s = true := by
  cases hl : handleLive s with
  | true => rfl
  | false =>
    rw [hl] at hL
    simp at hL
    omega

theorem stepLoad_handleLive (s : Sys) (a : LoadArgs) (now : ℚ) (j : ℕ)
    (hh : s.loader.peerAgentLoader = some j) :
    (stepLoad s a now).threw = true ∧ (stepLoad s a now).sys.transfers = s.transfers := by
  by_cases hfail : a.hasOnProgress = false ∨ a.frag = none ∨ s.peerAgentModule = false
  · rw [stepLoad_precond s a now hfail]
    exact ⟨rfl, rfl⟩
  · push_neg at hfail
    obtain ⟨hp1, hp2, hp3⟩ := hfail
    have hp1' : a.hasOnProgress = true := by
      revert hp1
      cases a.hasOnProgress <;> simp
    have hp3' : s.peerAgentModule = true := by
      revert hp3
      cases s.peerAgentModule <;> simp
    obtain ⟨frag, hf⟩ : ∃ frag, a.frag = some frag := by
      cases hfr : a.frag with
      | none => exact absurd hfr hp2
      | some fr => exact ⟨fr, rfl⟩
    rw [stepLoad_main s a now frag hp1' hf hp3', loadInternal_busy _ j (by simp [hh])]
    exact ⟨rfl, rfl⟩

theorem handle_none_of_not_live (s : Sys) (h : handleLive s = false) :
    s.loader.peerAgentLoader = none := by
  cases hh : s.loader.peerAgentLoader with
  | none => rfl
  | some j => simp [handleLive, hh] at h

theorem i2b_quiet (s : Sys) (h : I2b s) : QuietInv s := by
  obtain ⟨h1, h2, h3, h4, h5⟩ := h
  rcases h5 with h5 | h5
  · exact Or.inl h5
  · exact Or.inr ⟨h5, h3, h4⟩

theorem i2a_abortFn (s : Sys) (h : I2a s) : I2b (stepAbort s).sys := by
  obtain ⟨hA, hL, hC, hR1, hR2, hS, hH⟩ := h
  cases hh : s.loader.peerAgentLoader with
  | some i =>
    obtain ⟨st, hstat⟩ := stats_of_isSome s (hS (by simp [handleLive, hh]))
    obtain ⟨tr0, hget, hc0, ht0⟩ := hH i hh
    have hmc := liveList_markCancel s.transfers i tr0 hget hc0 ht0
    have hL1 : liveList s.transfers = 1 := by
      simpa [liveCount, handleLive, hh] using hL
    rw [stepAbort_handle s st i hh hstat]
    refine ⟨by simp [handleLive], ?_, by simp, by simp, Or.inl (by simp [statsAborted])⟩
    simp only [liveCount]
    omega
  | none =>
    rw [stepAbort_nohandle s hh]
    have hL0 : liveList s.transfers = 0 := by
      simpa [liveCount, handleLive, hh] using hL
    refine ⟨by simp [handleLive], by simpa [liveCount] using hL0, by simp, by simp,
            Or.inr ?_⟩
    have := pendList_split s.transfers
    simp only [pendingCount]
    omega

theorem i2b_step (s : Sys) (e : Ev) (h : I2b s) (ha : admissible s e = true)
    (hnl : isLoadEv e = false) : I2b (step s e).sys := by
  obtain ⟨h1, h2, h3, h4, h5⟩ := h
  cases e with
  | load a now => simp [isLoadEv] at hnl
  | backendSuccess i b now =>
    obtain ⟨st, hstat, hstab⟩ :=
      quiet_active s i (i2b_quiet s ⟨h1, h2, h3, h4, h5⟩)
        (by simpa [admissible, activeTransfer] using ha)
    simp only [step]
    rw [stepBS_aborted s st i b now hstat hstab]
    have hle := liveList_markTerm_le s.transfers i
    refine ⟨h1, ?_, h3, h4, Or.inl (by simpa [statsAborted, hstat] using hstab)⟩
    simp only [liveCount] at h2 ⊢
    omega
  | backendError i status =>
    obtain ⟨st, hstat, hstab⟩ :=
      quiet_active s i (i2b_quiet s ⟨h1, h2, h3, h4, h5⟩)
        (by simpa [admissible, activeTransfer] using ha)
    simp only [step]
    rw [stepBE_aborted s st i status hstat hstab]
    have hle := liveList_markTerm_le s.transfers i
    refine ⟨h1, ?_, h3, h4, Or.inl (by simpa [statsAborted, hstat] using hstab)⟩
    simp only [liveCount] at h2 ⊢
    omega
  | backendProgress i e2 now =>
    obtain ⟨st, hstat, hstab⟩ :=
      quiet_active s i (i2b_quiet s ⟨h1, h2, h3, h4, h5⟩)
        (by simpa [admissible, activeTransfer] using ha)
    obtain ⟨f1, f2, f3, f4, f5, f6, f7, f8, f9⟩ := stepProgress_frame s st e2 now hstat
    simp only [step]
    refine ⟨by simp only [handleLive, f4]; simpa [handleLive] using h1, ?_,
            by rw [f2]; exact h3, by rw [f3]; exact h4,
            Or.inl (by rw [f8]; exact hstab)⟩
    simp only [liveCount, f1]
    simpa [liveCount] using h2
  | fireRequestTimeout =>
    simp [admissible, h3] at ha
  | fireRetryTimeout =>
    simp [admissible, h4] at ha
  | abort =>
    rw [show step s .abort = stepAbort s from rfl,
        stepAbort_nohandle s (handle_none_of_not_live s h1)]
    exact ⟨by simp [handleLive], by simpa [liveCount] using h2, by simp, by simp,
           by simpa [statsAborted, pendingCount] using h5⟩
  | destroy =>
    rw [show step s .destroy = stepAbort s from rfl,
        stepAbort_nohandle s (handle_none_of_not_live s h1)]
    exact ⟨by simp [handleLive], by simpa [liveCount] using h2, by simp, by simp,
           by simpa [statsAborted, pendingCount] using h5⟩

theorem i2b_run (tr : List Ev) (s : Sys) (h : I2b s) (hwf : wfFrom s tr = true)
    (hnl : tr.all (fun e => !isLoadEv e) = true) : I2b (runS s tr) := by
  induction tr generalizing s with
  | nil => exact h
  | cons e rest ih =>
    simp only [wfFrom, Bool.and_eq_true] at hwf
    simp only [List.all_cons, Bool.and_eq_true] at hnl
    exact ih _ (i2b_step s e h hwf.1 (by simpa using hnl.1)) hwf.2 hnl.2

theorem i2a_step (s : Sys) (e : Ev) (h : I2a s) (ha : admissible s e = true)
    (hne : isAbortEv e = false)
    (hnlr : isLoadEv e = true → s.loader.retryTimeout = false) :
    I2a (step s e).sys := by
  obtain ⟨hA, hL, hC, hR1, hR2, hS, hH⟩ := h
  cases e with
  | abort => simp [isAbortEv] at hne
  | destroy => simp [isAbortEv] at hne
  | load a now =>
    have hret : s.loader.retryTimeout = false := hnlr (by simp [isLoadEv])
    by_cases hfail : a.hasOnProgress = false ∨ a.frag = none ∨ s.peerAgentModule = false
    · simp only [step]
      rw [stepLoad_precond s a now hfail]
      exact ⟨hA, hL, hC, hR1, hR2, hS, hH⟩
    · push_neg at hfail
      obtain ⟨hp1, hp2, hp3⟩ := hfail
      have hp1' : a.hasOnProgress = true := by
        revert hp1
        cases a.hasOnProgress <;> simp
      have hp3' : s.peerAgentModule = true := by
        revert hp3
        cases s.peerAgentModule <;> simp
      obtain ⟨frag, hf⟩ : ∃ frag, a.frag = some frag := by
        cases hfr : a.frag with
        | none => exact absurd hfr hp2
        | some fr => exact ⟨fr, rfl⟩
      simp only [step]
      rw [stepLoad_main s a now frag hp1' hf hp3']
      cases hh : s.loader.peerAgentLoader with
      | some j =>
        rw [loadInternal_busy _ j (by simp [hh])]
        refine ⟨by simp [statsAborted], ?_, hC, ?_, ?_, by simp, ?_⟩
        · simpa [liveCount, handleLive] using hL
        · intro _
          simp [handleLive, hh]
        · intro h2
          rw [hret] at h2
          exact absurd h2 (by simp)
        · intro i2 hi2
          exact hH i2 hi2
      | none =>
        rw [loadInternal_issue _ frag { trequest := now, retry := 0 } (by simp [hh])
            (by simp) (by simp)]
        have hz : liveList s.transfers = 0 := by
          simpa [liveCount, handleLive, hh] using hL
        refine ⟨by simp [statsAborted], ?_, ?_, ?_, ?_, by simp, ?_⟩
        · simp only [liveCount, handleLive, liveList_append, liveList_fresh, hz]
          simp
        · simp only [cancActList_append, cancActList_fresh, hC]
        · intro _
          simp [handleLive]
        · intro h2
          rw [hret] at h2
          exact absurd h2 (by simp)
        · intro i2 hi2
          simp only [Option.some.injEq] at hi2
          subst hi2
          exact ⟨_, get?_append_length s.transfers _, rfl, rfl⟩
  | backendSuccess i b now =>
    have hact : activeAt s.transfers i = true := by
      simpa [admissible, activeTransfer] using ha
    obtain ⟨tr0, hget, hc0, ht0⟩ := activeAt_uncancelled s.transfers i hC hact
    have hlm := liveList_markTerm s.transfers i tr0 hget hc0 ht0
    have hpos : 0 < liveCount s := by
      simp only [liveCount]
      omega
    have hhl := handleLive_of_liveCount s hL hpos
    obtain ⟨st, hstat⟩ := stats_of_isSome s (hS hhl)
    have hstab : st.aborted = false := by simpa [statsAborted, hstat] using hA
    obtain ⟨st2, heq, hab2⟩ := stepBS_ok s st i b now hstat hstab
    have hL1 : liveList s.transfers = 1 := by simpa [liveCount, hhl] using hL
    have hcm := cancActList_markTerm_le s.transfers i
    simp only [step]
    rw [heq]
    refine ⟨by simp [statsAborted, hab2, hstab], ?_, ?_, by simp, ?_,
            by simp [handleLive], ?_⟩
    · simp only [liveCount, handleLive]
      simp
      omega
    · show cancActList (markTerm s.transfers i) = 0
      omega
    · intro h2
      simp [handleLive]
    · intro i2 hi2
      simp at hi2
  | backendError i status =>
    have hact : activeAt s.transfers i = true := by
      simpa [admissible, activeTransfer] using ha
    obtain ⟨tr0, hget, hc0, ht0⟩ := activeAt_uncancelled s.transfers i hC hact
    have hlm := liveList_markTerm s.transfers i tr0 hget hc0 ht0
    have hpos : 0 < liveCount s := by
      simp only [liveCount]
      omega
    have hhl := handleLive_of_liveCount s hL hpos
    obtain ⟨st, hstat⟩ := stats_of_isSome s (hS hhl)
    have hstab : st.aborted = false := by simpa [statsAborted, hstat] using hA
    have hL1 : liveList s.transfers = 1 := by simpa [liveCount, hhl] using hL
    have hcm := cancActList_markTerm_le s.transfers i
    simp only [step]
    by_cases hr : st.retry < s.loader.maxRetry
    · rw [stepBE_retry s st i status hstat hstab hr]
      refine ⟨by simp [statsAborted, hstab], ?_, ?_, by simp, ?_,
              by simp [handleLive], ?_⟩
      · simp only [liveCount, handleLive]
        simp
        omega
      · show cancActList (markTerm s.transfers i) = 0
        omega
      · intro _
        simp [handleLive]
      · intro i2 hi2
        simp at hi2
    · rw [stepBE_final s st i status hstat hstab hr]
      refine ⟨by simp [statsAborted, hstat, hstab], ?_, ?_, by simp, ?_,
              by simp [handleLive], ?_⟩
      · simp only [liveCount, handleLive]
        simp
        omega
      · show cancActList (markTerm s.transfers i) = 0
        omega
      · intro h2
        simp at h2
      · intro i2 hi2
        simp at hi2
  | backendProgress i e2 now =>
    cases hstat : s.loader.stats with
    | none =>
      simp only [step, stepProgress, hstat]
      exact ⟨hA, hL, hC, hR1, hR2, hS, hH⟩
    | some st =>
      obtain ⟨f1, f2, f3, f4, f5, f6, f7, f8, f9⟩ := stepProgress_frame s st e2 now hstat
      simp only [step]
      refine ⟨?_, ?_, ?_, ?_, ?_, ?_, ?_⟩
      · rw [f8]
        simpa [statsAborted, hstat] using hA
      · simp only [liveCount, handleLive, f1, f4]
        simpa [liveCount, handleLive] using hL
      · rw [show (stepProgress s e2 now).sys.transfers = s.transfers from f1]
        exact hC
      · intro h2
        rw [f2] at h2
        simp only [handleLive, f4]
        simpa [handleLive] using hR1 h2
      · intro h2
        rw [f3] at h2
        simp only [handleLive, f4]
        simpa [handleLive] using hR2 h2
      · intro _
        exact f7
      · intro i2 hi2
        rw [f4] at hi2
        obtain ⟨tr2, hg, hc, ht⟩ := hH i2 hi2
        exact ⟨tr2, by rw [f1]; exact hg, hc, ht⟩
  | fireRequestTimeout =>
    simp only [step, stepFireRequestTimeout]
    exact ⟨hA, hL, hC, fun h2 => by simp at h2, hR2, hS, hH⟩
  | fireRetryTimeout =>
    have harm : s.loader.retryTimeout = true := by simpa [admissible] using ha
    have hh := handle_none_of_not_live s (hR2 harm)
    simp only [step, stepFireRetryTimeout]
    cases hf : s.loader.frag with
    | none =>
      rw [loadInternal_defect _ (by simp [hh]) (Or.inl (by simp [hf]))]
      exact ⟨hA, hL, hC, hR1, fun h2 => by simp at h2, hS, hH⟩
    | some frag =>
      cases hstat : s.loader.stats with
      | none =>
        rw [loadInternal_defect _ (by simp [hh]) (Or.inr (by simp [hstat]))]
        refine ⟨by simp [statsAborted], by simpa [liveCount, handleLive] using hL, hC,
                hR1, fun h2 => by simp at h2, ?_, ?_⟩
        · intro h2
          exact absurd h2 (by simp [handleLive, hh])
        · intro i2 hi2
          rw [hh] at hi2
          simp at hi2
      | some st =>
        rw [loadInternal_issue _ frag st (by simp [hh]) (by simp [hf]) (by simp [hstat])]
        have hz : liveList s.transfers = 0 := by
          simpa [liveCount, handleLive, hh] using hL
        refine ⟨?_, ?_, ?_, ?_, ?_, by simp, ?_⟩
        · have : st.aborted = false := by simpa [statsAborted, hstat] using hA
          simp [statsAborted, this]
        · simp only [liveCount, handleLive, liveList_append, liveList_fresh, hz]
          simp
        · simp only [cancActList_append, cancActList_fresh, hC]
        · intro _
          simp [handleLive]
        · intro h2
          simp at h2
        · intro i2 hi2
          simp only [Option.some.injEq] at hi2
          subst hi2
          exact ⟨_, get?_append_length s.transfers _, rfl, rfl⟩

theorem c2_main (tr : List Ev) (s : Sys) (h : I2a s) (hwf : wfFrom s tr = true)
    (hr : noLoadWhileRetry s tr = true) (hna : noLoadAfterAbort tr = true) :
    I2a (runS s tr) ∨ I2b (runS s tr) := by
  induction tr generalizing s with
  | nil => exact Or.inl h
  | cons e rest ih =>
    simp only [wfFrom, Bool.and_eq_true] at hwf
    simp only [noLoadWhileRetry, Bool.and_eq_true] at hr
    cases habe : isAbortEv e with
    | true =>
      have hstep : I2b (step s e).sys := by
        cases e <;> simp [isAbortEv] at habe <;> exact i2a_abortFn s h
      have hnl2 : rest.all (fun x => !isLoadEv x) = true := by
        simpa [noLoadAfterAbort, habe] using hna
      simp only [runS]
      exact Or.inr (i2b_run rest (step s e).sys hstep hwf.2 hnl2)
    | false =>
      have hna2 : noLoadAfterAbort rest = true := by
        simpa [noLoadAfterAbort, habe] using hna
      have hnlr : isLoadEv e = true → s.loader.retryTimeout = false := by
        intro hle
        have := hr.1
        rw [hle] at this
        simpa using this
      simp only [runS]
      exact ih _ (i2a_step s e ⟨h.1, h.2.1, h.2.2.1, h.2.2.2.1, h.2.2.2.2.1,
        h.2.2.2.2.2.1, h.2.2.2.2.2.2⟩ hwf.1 habe hnlr) hwf.2 hr.2 hna2

/-- C2 counterexample: in `c2Trace` the host calls `load` again while the
retry-delay timer scheduled by the first failure is still armed; the second
`load` arms the deadline timer without cancelling the retry timer, so both
timers are armed simultaneously in a reachable state. -/
theorem c2_timers_cex :
    wfFrom initSys c2Trace = true
    ∧ (runS initSys c2Trace).loader.requestTimeout = true
    ∧ (runS initSys c2Trace).loader.retryTimeout = true := by
  exact ⟨by decide, by decide, by decide⟩

/-- C2 amended: in every state reachable by a sequence of events in which
`load()` is never called while the retry-delay timer is armed and never
called after an `abort()`/`destroy()`, at most one transfer is genuinely in
flight, the deadline and retry-delay timers are never both armed, the
deadline timer is armed only while a backend handle is live and the
retry-delay timer only while none is; and a `load()` issued while a handle
is live throws (from `loadInternal`'s consistency check) and issues no new
transfer — the last fact holds unconditionally. -/
theorem c2_single_flight (tr : List Ev) (a : LoadArgs) (now : ℚ)
    (hwf : wfFrom initSys tr = true)
    (hr : noLoadWhileRetry initSys tr = true)
    (hna : noLoadAfterAbort tr = true) :
    liveCount (runS initSys tr) ≤ 1
    ∧ ¬((runS initSys tr).loader.requestTimeout = true
        ∧ (runS initSys tr).loader.retryTimeout = true)
    ∧ ((runS initSys tr).loader.requestTimeout = true → handleLive (runS initSys tr) = true)
    ∧ ((runS initSys tr).loader.retryTimeout = true → handleLive (runS initSys tr) = false)
    ∧ (∀ j, (runS initSys tr).loader.peerAgentLoader = some j →
        (stepLoad (runS initSys tr) a now).threw = true
        ∧ (stepLoad (runS initSys tr) a now).sys.transfers = (runS initSys tr).transfers) := by
  have hinit : I2a initSys := by
    refine ⟨rfl, rfl, rfl, ?_, ?_, ?_, ?_⟩
    · intro h2
      simp [initSys] at h2
    · intro h2
      simp [initSys] at h2
    · intro h2
      simp [handleLive, initSys] at h2
    · intro i hi
      simp [initSys] at hi
  have hload := fun j hj => stepLoad_handleLive (runS initSys tr) a now j hj
  rcases c2_main tr initSys hinit hwf hr hna with
    ⟨hA, hL, hC, hR1, hR2, hS, hH⟩ | ⟨h1, h2, h3, h4, h5⟩
  · refine ⟨?_, ?_, hR1, hR2, hload⟩
    · rw [show liveCount (runS initSys tr) = _ from hL]
      split <;> omega
    · rintro ⟨hq, hrt⟩
      have e1 := hR1 hq
      have e2 := hR2 hrt
      rw [e1] at e2
      exact absurd e2 (by simp)
  · refine ⟨by omega, ?_, ?_, ?_, hload⟩
    · rintro ⟨hq, _⟩
      rw [h3] at hq
      exact absurd hq (by simp)
    · intro hq
      rw [h3] at hq
      exact absurd hq (by simp)
    · intro hrt
      rw [h4] at hrt
      exact absurd hrt (by simp)

/-- Witness for C2 (amended) on the complete one-retry trace. -/
theorem c2_single_flight_witness :
    wfFrom initSys oneRetryTrace = true
    ∧ noLoadWhileRetry initSys oneRetryTrace = true
    ∧ noLoadAfterAbort oneRetryTrace = true
    ∧ liveCount (runS initSys oneRetryTrace) ≤ 1
    ∧ ¬((runS initSys oneRetryTrace).loader.requestTimeout = true
        ∧ (runS initSys oneRetryTrace).loader.retryTimeout = true) :=
  ⟨by decide, by decide, by decide,
   (c2_single_flight oneRetryTrace argsPlain 0 (by decide) (by decide) (by decide)).1,
   (c2_single_flight oneRetryTrace argsPlain 0 (by decide) (by decide) (by decide)).2.1⟩

/-! ## C6: exactly one host terminal callback per generation -/

theorem done_step (s : Sys) (e : Ev) (h : Done s) (ha : admissible s e = true)
    (hne : (!isLoadEv e && !isAbortEv e) = true) :
    Done (step s e).sys ∧ hostTerminals (step s e).out = 0 := by
  obtain ⟨h1, h2, h3, h4⟩ := h
  cases e with
  | load a now => simp [isLoadEv] at hne
  | abort => simp [isAbortEv] at hne
  | destroy => simp [isAbortEv] at hne
  | backendSuccess i b now =>
    have := activeAt_pos s.transfers i (by simpa [admissible, activeTransfer] using ha)
    simp only [pendingCount] at h1
    omega
  | backendError i status =>
    have := activeAt_pos s.transfers i (by simpa [admissible, activeTransfer] using ha)
    simp only [pendingCount] at h1
    omega
  | backendProgress i e2 now =>
    have := activeAt_pos s.transfers i (by simpa [admissible, activeTransfer] using ha)
    simp only [pendingCount] at h1
    omega
  | fireRequestTimeout => simp [admissible, h2] at ha
  | fireRetryTimeout => simp [admissible, h3] at ha

theorem alive_step (s : Sys) (e : Ev) (h : Alive s) (ha : admissible s e = true)
    (hne : (!isLoadEv e && !isAbortEv e) = true) :
    (Alive (step s e).sys ∧ hostTerminals (step s e).out = 0)
    ∨ (Done (step s e).sys ∧ hostTerminals (step s e).out = 1) := by
  obtain ⟨hA, hSt, hF, hC, hphase⟩ := h
  cases e with
  | load a now => simp [isLoadEv] at hne
  | abort => simp [isAbortEv] at hne
  | destroy => simp [isAbortEv] at hne
  | backendSuccess i b now =>
    have hact : activeAt s.transfers i = true := by
      simpa [admissible, activeTransfer] using ha
    have hpos := activeAt_pos s.transfers i hact
    have hmt := pendList_markTerm s.transfers i hact
    rcases hphase with ⟨p1, p2, p3⟩ | ⟨q1, q2, q3⟩
    · obtain ⟨st, hstat⟩ := stats_of_isSome s hSt
      have hstab : st.aborted = false := by simpa [statsAborted, hstat] using hA
      obtain ⟨st2, heq, hab2⟩ := stepBS_ok s st i b now hstat hstab
      right
      simp only [step]
      rw [heq]
      refine ⟨⟨?_, by simp, by simp, by simp [handleLive]⟩,
              by simp [hostTerminals, isHostTerminal]⟩
      show pendList (markTerm s.transfers i) = 0
      simp only [pendingCount] at p2
      omega
    · exfalso
      simp only [pendingCount] at q2
      omega
  | backendError i status =>
    have hact : activeAt s.transfers i = true := by
      simpa [admissible, activeTransfer] using ha
    have hpos := activeAt_pos s.transfers i hact
    have hmt := pendList_markTerm s.transfers i hact
    have hcm := cancActList_markTerm_le s.transfers i
    rcases hphase with ⟨p1, p2, p3⟩ | ⟨q1, q2, q3⟩
    · obtain ⟨st, hstat⟩ := stats_of_isSome s hSt
      have hstab : st.aborted = false := by simpa [statsAborted, hstat] using hA
      simp only [pendingCount] at p2
      simp only [step]
      by_cases hr : st.retry < s.loader.maxRetry
      · left
        rw [stepBE_retry s st i status hstat hstab hr]
        refine ⟨⟨by simp [statsAborted, hstab], by simp, ?_, ?_,
                 Or.inr ⟨by simp [handleLive], ?_, by simp⟩⟩,
                by simp [hostTerminals, isHostTerminal]⟩
        · exact hF
        · show cancActList (markTerm s.transfers i) = 0
          omega
        · show pendList (markTerm s.transfers i) = 0
          omega
      · right
        rw [stepBE_final s st i status hstat hstab hr]
        refine ⟨⟨?_, by simp, by simp, by simp [handleLive]⟩,
                by simp [hostTerminals, isHostTerminal]⟩
        show pendList (markTerm s.transfers i) = 0
        omega
    · exfalso
      simp only [pendingCount] at q2
      omega
  | backendProgress i e2 now =>
    have hact : activeAt s.transfers i = true := by
      simpa [admissible, activeTransfer] using ha
    have hpos := activeAt_pos s.transfers i hact
    obtain ⟨st, hstat⟩ := stats_of_isSome s hSt
    obtain ⟨f1, f2, f3, f4, f5, f6, f7, f8, f9⟩ := stepProgress_frame s st e2 now hstat
    left
    simp only [step]
    refine ⟨⟨?_, f7, ?_, ?_, ?_⟩, f9⟩
    · rw [f8]
      simpa [statsAborted, hstat] using hA
    · rw [f6]
      exact hF
    · rw [show (stepProgress s e2 now).sys.transfers = s.transfers from f1]
      exact hC
    · rcases hphase with ⟨p1, p2, p3⟩ | ⟨q1, q2, q3⟩
      · refine Or.inl ⟨?_, ?_, by rw [f3]; exact p3⟩
        · simp only [handleLive, f4]
          simpa [handleLive] using p1
        · simp only [pendingCount, f1]
          simpa [pendingCount] using p2
      · exfalso
        simp only [pendingCount] at q2
        omega
  | fireRequestTimeout =>
    left
    simp only [step, stepFireRequestTimeout]
    exact ⟨⟨hA, hSt, hF, hC, hphase⟩, by simp [hostTerminals, isHostTerminal]⟩
  | fireRetryTimeout =>
    have harm : s.loader.retryTimeout = true := by simpa [admissible] using ha
    rcases hphase with ⟨p1, p2, p3⟩ | ⟨q1, q2, q3⟩
    · rw [p3] at harm
      exact absurd harm (by simp)
    · have hh := handle_none_of_not_live s q1
      obtain ⟨st, hstat⟩ := stats_of_isSome s hSt
      obtain ⟨frag, hf⟩ : ∃ frag, s.loader.frag = some frag := by
        cases hfr : s.loader.frag with
        | none =>
          rw [hfr] at hF
          simp at hF
        | some fr => exact ⟨fr, rfl⟩
      left
      simp only [step, stepFireRetryTimeout]
      rw [loadInternal_issue _ frag st (by simp [hh]) (by simp [hf]) (by simp [hstat])]
      have hz : pendList s.transfers = 0 := by simpa [pendingCount] using q2
      refine ⟨⟨?_, by simp, by simp [hf], ?_, Or.inl ⟨by simp [handleLive], ?_, by simp⟩⟩,
              by simp [hostTerminals, isHostTerminal]⟩
      · have : st.aborted = false := by simpa [statsAborted, hstat] using hA
        simp [statsAborted, this]
      · simp only [cancActList_append, cancActList_fresh, hC]
      · simp only [pendingCount, pendList_append, pendList_fresh, hz]

theorem done_run (tr : List Ev) (s : Sys) (h : Done s) (hwf : wfFrom s tr = true)
    (hgood : tr.all (fun e => !isLoadEv e && !isAbortEv e) = true) :
    Done (runS s tr) ∧ hostTerminals (runOuts s tr) = 0 := by
  induction tr generalizing s with
  | nil => exact ⟨h, by simp [runOuts, runAnnot, hostTerminals]⟩
  | cons e rest ih =>
    simp only [wfFrom, Bool.and_eq_true] at hwf
    simp only [List.all_cons, Bool.and_eq_true] at hgood
    obtain ⟨hD2, hz⟩ := done_step s e h hwf.1 (by simpa using hgood.1)
    obtain ⟨hD3, hz3⟩ := ih _ hD2 hwf.2 hgood.2
    rw [runOuts_cons, hostTerminals_append, hz, hz3]
    exact ⟨by simpa [runS] using hD3, rfl⟩

theorem alive_run (tr : List Ev) (s : Sys) (h : Alive s) (hwf : wfFrom s tr = true)
    (hgood : tr.all (fun e => !isLoadEv e && !isAbortEv e) = true) :
    (Alive (runS s tr) ∧ hostTerminals (runOuts s tr) = 0)
    ∨ (Done (runS s tr) ∧ hostTerminals (runOuts s tr) = 1) := by
  induction tr generalizing s with
  | nil => exact Or.inl ⟨h, by simp [runOuts, runAnnot, hostTerminals]⟩
  | cons e rest ih =>
    simp only [wfFrom, Bool.and_eq_true] at hwf
    simp only [List.all_cons, Bool.and_eq_true] at hgood
    rcases alive_step s e h hwf.1 (by simpa using hgood.1) with ⟨hA2, hz⟩ | ⟨hD2, hz⟩
    · rcases ih _ hA2 hwf.2 hgood.2 with ⟨hA3, hz3⟩ | ⟨hD3, hz3⟩
      · exact Or.inl ⟨by simpa [runS] using hA3,
          by rw [runOuts_cons, hostTerminals_append, hz, hz3]⟩
      · exact Or.inr ⟨by simpa [runS] using hD3,
          by rw [runOuts_cons, hostTerminals_append, hz, hz3]⟩
    · obtain ⟨hD3, hz3⟩ := done_run rest _ hD2 hwf.2 hgood.2
      exact Or.inr ⟨by simpa [runS] using hD3,
        by rw [runOuts_cons, hostTerminals_append, hz, hz3]⟩

theorem alive_after_load (a : LoadArgs) (t : ℚ) (frag : Frag)
    (hp : a.hasOnProgress = true) (hf : a.frag = some frag) :
    Alive (stepLoad initSys a t).sys ∧ hostTerminals (stepLoad initSys a t).out = 0 := by
  rw [stepLoad_main initSys a t frag hp hf rfl]
  rw [loadInternal_issue _ frag { trequest := t, retry := 0 } (by simp [initSys])
      (by simp) (by simp)]
  refine ⟨⟨by simp [statsAborted], by simp, by simp, ?_,
           Or.inl ⟨by simp [handleLive], ?_, by simp [initSys]⟩⟩,
          by simp [hostTerminals, isHostTerminal]⟩
  · simp [initSys, cancActList, List.filter]
  · simp [initSys, pendingCount, pendList, List.filter]

/-- C6: for one `load()` call with valid arguments that is never aborted,
and a backend that delivers at most one terminal callback per issued
transfer, at most one host terminal (success or error) callback fires; and
if the environment is exhausted (every issued transfer has delivered its
terminal callback and no timer is armed — the backend's "exactly one
terminal per transfer" contract), exactly one fires.  Intermediate failures
within the retry budget fire neither (they emit only the retry arming,
counted as zero here). -/
theorem c6_exactly_one (a : LoadArgs) (t : ℚ) (rest : List Ev) (frag : Frag)
    (hp : a.hasOnProgress = true) (hf : a.frag = some frag)
    (hwf : wfFrom initSys (.load a t :: rest) = true)
    (hrest : rest.all (fun e => !isLoadEv e && !isAbortEv e) = true) :
    hostTerminals (runOuts initSys (.load a t :: rest)) ≤ 1
    ∧ (completeB (runS initSys (.load a t :: rest)) = true →
        hostTerminals (runOuts initSys (.load a t :: rest)) = 1) := by
  obtain ⟨hal, hz⟩ := alive_after_load a t frag hp hf
  simp only [wfFrom, Bool.and_eq_true] at hwf
  simp only [runOuts_cons, hostTerminals_append, runS, step]
  rcases alive_run rest (stepLoad initSys a t).sys hal hwf.2 hrest with
    ⟨hA2, hz2⟩ | ⟨hD2, hz2⟩
  · rw [hz, hz2]
    refine ⟨by omega, fun hcomp => ?_⟩
    exfalso
    simp only [completeB, Bool.and_eq_true] at hcomp
    obtain ⟨⟨hc1, hc2⟩, hc3⟩ := hcomp
    have hc1b : pendingCount (runS (stepLoad initSys a t).sys rest) = 0 := by
      simpa using hc1
    have hc3b : (runS (stepLoad initSys a t).sys rest).loader.retryTimeout = false := by
      simpa using hc3
    obtain ⟨_, _, _, _, hphase⟩ := hA2
    rcases hphase with ⟨p1, p2, p3⟩ | ⟨q1, q2, q3⟩
    · omega
    · exact absurd q3 (by simp [hc3b])
  · rw [hz, hz2]
    exact ⟨by omega, fun _ => rfl⟩

/-- Witness for C6 on the complete one-retry generation: one failure, the
retry, then success — exactly one host terminal callback. -/
theorem c6_exactly_one_witness :
    wfFrom initSys (.load argsPlain 0 :: c6Rest) = true
    ∧ completeB (runS initSys (.load argsPlain 0 :: c6Rest)) = true
    ∧ hostTerminals (runOuts initSys (.load argsPlain 0 :: c6Rest)) = 1 :=
  ⟨by decide, by decide,
   (c6_exactly_one argsPlain 0 c6Rest {} rfl rfl (by decide) (by decide)).2 (by decide)⟩
